import Mathlib

/-!
# Adafruit_TinyFlash: the command/status protocol of the Winbond W25Qxx driver

A shallow embedding of `Adafruit_TinyFlash.cpp`.  Every driver routine is a
function on an explicit driver state `St`; the outside world (the flash chip at
the other end of the bus, the millisecond counter, the identification query of
the SPIMemory library and the default argument declared in the header) is a
`Platform` value.  The state carries a ghost record of everything that happened
on the bus (`St.trace`), in chronological order.

Machine integers are natural numbers: `uint8_t` values are reduced `% 256`
where the C code truncates (the argument and the result of `spi_xfer`), and the
unsigned 32-bit subtraction of `waitForReady` is written out `% 2^32`.
The `do ... while` loop of `waitForReady` need not terminate, so it is driven
by a fuel argument that bounds the number of polls of one call; `none` means
the fuel ran out.
-/

namespace TinyFlash

/-! ## Constants (`#define`s of the source) -/

def CMD_PAGEPROG : Nat := 0x02
def CMD_READDATA : Nat := 0x03
def CMD_WRITEDISABLE : Nat := 0x04
def CMD_READSTAT1 : Nat := 0x05
def CMD_WRITEENABLE : Nat := 0x06
def CMD_SECTORERASE : Nat := 0x20
def CMD_CHIPERASE : Nat := 0x60
def CMD_ID : Nat := 0x90

def STAT_BUSY : Nat := 0x01
def STAT_WRTEN : Nat := 0x02

def CHIP_BYTES_W25Q80 : Nat := 1 * 1024 * 1024
def CHIP_BYTES_W25Q16 : Nat := 2 * 1024 * 1024
def CHIP_BYTES_W25Q32 : Nat := 4 * 1024 * 1024
def CHIP_BYTES_W25Q64 : Nat := 8 * 1024 * 1024
def CHIP_BYTES_W25Q128 : Nat := 16 * 1024 * 1024

/-! ## Bus events, platform and driver state -/

/-- One event on the bus: chip-select asserted (`CHIP_SELECT`), released
(`CHIP_DESELECT`), or one full-duplex byte exchange (`spi_xfer`), recorded by
the byte the driver sent.  The byte received in an exchange is a function of
the history (`Platform.chip`), so it needs no record of its own. -/
inductive Ev where
  | select : Ev
  | deselect : Ev
  | xfer (out : Nat) : Ev
  deriving DecidableEq

/-- Everything the driver does not own.
* `chip h out` is the byte the chip shifts back when the driver sends `out`
  after the bus history `h`;
* `clock i` is the time in milliseconds at the `i`-th call of `millis()`
  (the counter read by the program is this value truncated to 32 bits);
* `jedecID` is the `uint32_t` value returned by `flash.getJEDECID()`;
* `defaultTimeout` is the default argument of `waitForReady`, declared in the
  header `Adafruit_TinyFlash.h`. -/
structure Platform where
  chip : List Ev → Nat → Nat
  clock : Nat → Nat
  jedecID : Nat
  defaultTimeout : Nat

/-- Driver-visible state.  `capacity` is the global `__capacity`, `cs` is the
level of the chip-select line (`true` = asserted), `trace` the bus history,
`ticks` the number of `millis()` calls made so far and `slept` the total time
requested from `delay`. -/
structure St where
  capacity : Nat
  cs : Bool
  trace : List Ev
  ticks : Nat
  slept : Nat
  deriving DecidableEq

/-! ## Primitives -/

/-- Embeds the macro `CHIP_SELECT`. -/
def chipSelect (s : St) : St :=
  { s with cs := true, trace := s.trace ++ [Ev.select] }

/-- Embeds the macro `CHIP_DESELECT`. -/
def chipDeselect (s : St) : St :=
  { s with cs := false, trace := s.trace ++ [Ev.deselect] }

/-- Embeds `spi_xfer(n)`: the argument and the result are `uint8_t`. -/
def spi_xfer (P : Platform) (n : Nat) (s : St) : Nat × St :=
  let out := n % 256
  let inp := P.chip s.trace out % 256
  (inp, { s with trace := s.trace ++ [Ev.xfer out] })

/-- Unsigned 32-bit subtraction `a - b`, as in `millis() - startTime`. -/
def sub32 (a b : Nat) : Nat :=
  (a + 2 ^ 32 - b % 2 ^ 32) % 2 ^ 32

/-- Embeds `millis()`, an unsigned 32-bit millisecond counter. -/
def millis (P : Platform) (s : St) : Nat × St :=
  (P.clock s.ticks % 2 ^ 32, { s with ticks := s.ticks + 1 })

/-- Embeds `delay(ms)`. -/
def delay (ms : Nat) (s : St) : St :=
  { s with slept := s.slept + ms }

/-- Embeds `Adafruit_TinyFlash::cmd`: select the chip and issue a command
byte, without deselecting. -/
def cmd (P : Platform) (c : Nat) (s : St) : St :=
  (spi_xfer P c (chipSelect s)).2

/-! ## Driver routines -/

/-- Embeds `Adafruit_TinyFlash::begin`: the `switch` on the identifier.  The
pin and bus set-up performed through the platform libraries is not part of the
protocol and is not modelled. -/
def begin (P : Platform) (s : St) : Nat × St :=
  let JedecID := P.jedecID
  let cap :=
    if JedecID = 0xEF4014 then CHIP_BYTES_W25Q80
    else if JedecID = 0xEF4015 then CHIP_BYTES_W25Q16
    else if JedecID = 0xEF4016 then CHIP_BYTES_W25Q32
    else if JedecID = 0xEF4017 then CHIP_BYTES_W25Q64
    else if JedecID = 0xEF4018 then CHIP_BYTES_W25Q128
    else 0
  (cap, { s with capacity := cap })

/-- The `do ... while (status & STAT_BUSY)` loop of `waitForReady`; one unit
of fuel pays for one poll. -/
def waitLoop (P : Platform) (timeout startTime : Nat) : Nat → St → Option (Bool × St)
  | 0, _ => none
  | fuel + 1, s =>
    let s1 := cmd P CMD_READSTAT1 s
    let r := spi_xfer P 0 s1
    let status := r.1
    let s2 := chipDeselect r.2
    let m := millis P s2
    if sub32 m.1 startTime > timeout then some (false, m.2)
    else if status &&& STAT_BUSY ≠ 0 then waitLoop P timeout startTime fuel m.2
    else some (true, m.2)

/-- Embeds `Adafruit_TinyFlash::waitForReady(timeout)`. -/
def waitForReady (P : Platform) (timeout fuel : Nat) (s : St) : Option (Bool × St) :=
  let m := millis P s
  waitLoop P timeout m.1 fuel m.2

/-- Embeds `Adafruit_TinyFlash::beginRead(addr)`. -/
def beginRead (P : Platform) (fuel addr : Nat) (s : St) : Option (Bool × St) :=
  if addr ≥ s.capacity then some (false, s)
  else
    match waitForReady P P.defaultTimeout fuel s with
    | none => none
    | some (ready, s1) =>
      if !ready then some (false, s1)
      else
        let s2 := cmd P CMD_READDATA s1
        let s3 := (spi_xfer P (addr >>> 16) s2).2
        let s4 := (spi_xfer P (addr >>> 8) s3).2
        let s5 := (spi_xfer P addr s4).2
        some (true, s5)

/-- Embeds `Adafruit_TinyFlash::readNextByte`. -/
def readNextByte (P : Platform) (s : St) : Nat × St :=
  spi_xfer P 0 s

/-- Embeds `Adafruit_TinyFlash::endRead`. -/
def endRead (s : St) : St :=
  chipDeselect s

/-- Embeds `Adafruit_TinyFlash::writeEnable`. -/
def writeEnable (P : Platform) (s : St) : Bool × St :=
  let s1 := chipDeselect (cmd P CMD_WRITEENABLE s)
  let r := spi_xfer P 0 (cmd P CMD_READSTAT1 s1)
  let status := r.1
  let s2 := chipDeselect r.2
  (if status &&& STAT_WRTEN ≠ 0 then true else false, s2)

/-- Embeds `Adafruit_TinyFlash::writeDisable`. -/
def writeDisable (P : Platform) (s : St) : St :=
  chipDeselect (cmd P CMD_WRITEDISABLE s)

/-- Embeds `Adafruit_TinyFlash::eraseChip`. -/
def eraseChip (P : Platform) (fuel : Nat) (s : St) : Option (Bool × St) :=
  match waitForReady P P.defaultTimeout fuel s with
  | none => none
  | some (ready, s1) =>
    if !ready then some (false, s1)
    else
      let w := writeEnable P s1
      if !w.1 then some (false, w.2)
      else
        let s2 := chipDeselect (cmd P CMD_CHIPERASE w.2)
        match waitForReady P 10000 fuel s2 with
        | none => none
        | some (done, s3) =>
          if !done then some (false, s3)
          else some (true, writeDisable P s3)

/-- Embeds `Adafruit_TinyFlash::eraseSector(addr)`. -/
def eraseSector (P : Platform) (fuel addr : Nat) (s : St) : Option (Bool × St) :=
  match waitForReady P P.defaultTimeout fuel s with
  | none => none
  | some (ready, s1) =>
    if !ready then some (false, s1)
    else
      let w := writeEnable P s1
      if !w.1 then some (false, w.2)
      else
        let s2 := cmd P CMD_SECTORERASE w.2
        let s3 := (spi_xfer P (addr >>> 16) s2).2
        let s4 := (spi_xfer P (addr >>> 8) s3).2
        let s5 := (spi_xfer P 0 s4).2
        let s6 := chipDeselect s5
        match waitForReady P 1000 fuel s6 with
        | none => none
        | some (done, s7) =>
          if !done then some (false, s7)
          else some (true, writeDisable P s7)

/-- The loop `for (int i = 0; i < 256; i++) spi_xfer(data[i]);` of `writePage`,
for a general bound `n`; `data i` is the byte `data[i]`. -/
def sendData (P : Platform) (data : Nat → Nat) (n : Nat) (s : St) : St :=
  (List.range n).foldl (fun acc i => (spi_xfer P (data i) acc).2) s

/-- Embeds `Adafruit_TinyFlash::writePage(addr, data)`. -/
def writePage (P : Platform) (fuel addr : Nat) (data : Nat → Nat) (s : St) :
    Option (Bool × St) :=
  if addr ≥ s.capacity then some (false, s)
  else
    match waitForReady P P.defaultTimeout fuel s with
    | none => none
    | some (ready, s1) =>
      if !ready then some (false, s1)
      else
        let w := writeEnable P s1
        if !w.1 then some (false, w.2)
        else
          let s2 := cmd P CMD_PAGEPROG w.2
          let s3 := (spi_xfer P (addr >>> 16) s2).2
          let s4 := (spi_xfer P (addr >>> 8) s3).2
          let s5 := (spi_xfer P 0 s4).2
          let s6 := sendData P data 256 s5
          let s7 := chipDeselect s6
          let s8 := delay 3 s7
          match waitForReady P P.defaultTimeout fuel s8 with
          | none => none
          | some (done, s9) =>
            if !done then some (false, s9)
            else some (true, writeDisable P s9)

/-- The `n` calls of `readNextByte()` a caller makes after `beginRead`: the
bytes returned, in order, and the state afterwards. -/
def readBytes (P : Platform) : Nat → St → List Nat × St
  | 0, s => ([], s)
  | n + 1, s =>
    let r := readNextByte P s
    let rest := readBytes P n r.2
    (r.1 :: rest.1, rest.2)

/-! ## Views of a bus trace -/

/-- The bytes the driver transmitted, in order. -/
def sentBytes : List Ev → List Nat
  | [] => []
  | Ev.xfer out :: t => out :: sentBytes t
  | _ :: t => sentBytes t

/-- How one bus event changes the open transaction: `some bytes` are the bytes
sent since the chip was selected, `none` means the chip is deselected. -/
def txnStep (acc : Option (List Nat)) : Ev → Option (List Nat)
  | Ev.select => some []
  | Ev.deselect => none
  | Ev.xfer out => acc.map (fun bytes => bytes ++ [out])

/-- The bytes sent so far in the transaction that is open at the end of the
history `h`; `none` when the chip is deselected. -/
def openTxn (h : List Ev) : Option (List Nat) :=
  h.foldl txnStep none

/-- One status poll as it appears on the bus. -/
def pollTxn : List Ev :=
  [Ev.select, Ev.xfer CMD_READSTAT1, Ev.xfer 0, Ev.deselect]

/-- The bus trace of `k` status polls in a row. -/
def polls : Nat → List Ev
  | 0 => []
  | k + 1 => pollTxn ++ polls k

/-! ## Chip and platform models used to state and exercise the properties -/

/-- Reference chip with memory contents `mem`: once selected and given the
read command `0x03` and three address bytes (high, middle, low), every further
exchange returns the next memory byte, starting at that address.  Every other
exchange, a status read included, returns `0x00`: the chip is never busy. -/
def refChip (mem : Nat → Nat) (h : List Ev) (_out : Nat) : Nat :=
  match openTxn h with
  | some (3 :: a2 :: a1 :: a0 :: rest) => mem (a2 * 65536 + a1 * 256 + a0 + rest.length)
  | _ => 0

/-- A chip that answers `0x00` to every exchange: never busy, write-enable
never latched. -/
def idleChip : List Ev → Nat → Nat := fun _ _ => 0

/-- A chip that answers `0x02` to every exchange: never busy, write-enable
always latched. -/
def latchedChip : List Ev → Nat → Nat := fun _ _ => 2

/-- A chip that answers `0x01` to every exchange: BUSY never clears. -/
def busyChip : List Ev → Nat → Nat := fun _ _ => 1

/-- A status source whose every read has BUSY set: whatever the history, the
dummy exchange that follows `select, 0x05` returns a byte with bit 0 set. -/
def AlwaysBusy (P : Platform) : Prop :=
  ∀ h : List Ev, P.chip (h ++ [Ev.select, Ev.xfer CMD_READSTAT1]) 0 % 2 = 1

/-- A W25Q80 (1 MiB) with the given chip behaviour and clock, and a default
timeout of 100 ms. -/
def w25q80 (chip : List Ev → Nat → Nat) (clock : Nat → Nat) : Platform :=
  { chip := chip, clock := clock, jedecID := 0xEF4014, defaultTimeout := 100 }

/-- Sample memory contents: byte `i` holds `(7 * i + 3) mod 256`. -/
def rampMem (i : Nat) : Nat := (7 * i + 3) % 256

/-- A clock that advances 101 ms from one reading to the next. -/
def slowClock (i : Nat) : Nat := 101 * i

/-- The state of a 1 MiB device right after a ready-wait that took one poll,
starting from `initSt`. -/
def afterOnePoll : St :=
  { capacity := 1048576, cs := false, trace := pollTxn, ticks := 2, slept := 0 }

/-- A platform whose identification query returns `ident`, with an idle chip,
a clock that advances 1 ms per reading and the default timeout of 100 ms. -/
def identified (ident : Nat) : Platform :=
  { chip := idleChip, clock := fun i => i, jedecID := ident, defaultTimeout := 100 }

/-- A clock that advances `2^32` ms from one reading to the next, so that the
32-bit counter shows the same value at every reading. -/
def wrapClock (i : Nat) : Nat := 2 ^ 32 * i

/-- The state before any bus traffic, with the given capacity. -/
def initSt (capacity : Nat) : St :=
  { capacity := capacity, cs := false, trace := [], ticks := 0, slept := 0 }

/-! ## Transactions -/

/-- The bus events of one transaction that sends `bytes`: select, the
exchanges in order, deselect. -/
def txnEvents (bytes : List Nat) : List Ev :=
  Ev.select :: (bytes.map Ev.xfer ++ [Ev.deselect])

/-- The bus trace of a sequence of transactions, each given by the bytes it
sends. -/
def busOf : List (List Nat) → List Ev
  | [] => []
  | bytes :: rest => txnEvents bytes ++ busOf rest

/-- Chip-select discipline of a trace, run from the select level `sel`:
`none` as soon as select is asserted while selected, a byte is exchanged while
deselected or deselect is issued while deselected; otherwise the select level
at the end. -/
def csCheck : Bool → List Ev → Option Bool
  | sel, [] => some sel
  | false, Ev.select :: t => csCheck true t
  | true, Ev.select :: _ => none
  | true, Ev.xfer _ :: t => csCheck true t
  | false, Ev.xfer _ :: _ => none
  | true, Ev.deselect :: t => csCheck false t
  | false, Ev.deselect :: _ => none

/-- The state after one complete transaction sending `bytes` from state `s`. -/
def afterTxn (s : St) (bytes : List Nat) : St :=
  { s with cs := false, trace := s.trace ++ txnEvents bytes }

/-- The common tail of `eraseChip`, `eraseSector` and `writePage`, applied to
the outcome `r` of the last ready-wait:
`if (!waitForReady(...)) return false; writeDisable(); return true;`. -/
def disableIfReady (P : Platform) (r : Option (Bool × St)) : Option (Bool × St) :=
  match r with
  | none => none
  | some (done, s) => if !done then some (false, s) else some (true, writeDisable P s)

/-- A clock that reads `2^32 - 5` at its first reading and advances 10 ms per
reading, so that the 32-bit counter wraps between the first two readings. -/
def rolloverClock (i : Nat) : Nat := 2 ^ 32 - 5 + 10 * i

/-- The status byte that `writeEnable` re-reads when it is called in state
`s`: the chip's answer to the dummy exchange that follows
`select, 0x06, deselect, select, 0x05`. -/
def wrenStatus (P : Platform) (s : St) : Nat :=
  P.chip (s.trace ++ [Ev.select, Ev.xfer 0x06, Ev.deselect, Ev.select, Ev.xfer 0x05]) 0 % 256

/-- The chip-select discipline of an operation that took the driver from state
`s` to state `s9`: what it added to the trace is a concatenation of
transactions, each `select`, one or more byte exchanges, `deselect`; run from
the select level of `s`, that trace never asserts select while selected, never
exchanges a byte while deselected, and ends deselected; and the select line is
released in `s9`. -/
def Bracketed (s s9 : St) : Prop :=
  ∃ txs : List (List Nat), (∀ tx ∈ txs, tx ≠ []) ∧
    s9.trace = s.trace ++ busOf txs ∧
    csCheck s.cs (busOf txs) = some false ∧
    s9.cs = false

/-! ## Basic facts about the primitives and the ready-wait -/

theorem polls_succ_end (k : Nat) : polls (k + 1) = polls k ++ pollTxn := by
  induction k with
  | zero => simp [polls]
  | succ n ih =>
    calc polls (n + 1 + 1) = pollTxn ++ polls (n + 1) := rfl
      _ = pollTxn ++ (polls n ++ pollTxn) := by rw [ih]
      _ = (pollTxn ++ polls n) ++ pollTxn := by rw [List.append_assoc]
      _ = polls (n + 1) ++ pollTxn := rfl

theorem sentBytes_append (t u : List Ev) : sentBytes (t ++ u) = sentBytes t ++ sentBytes u := by
  induction t with
  | nil => rfl
  | cons e t ih => cases e <;> simp [sentBytes, ih]

theorem sentBytes_polls (k : Nat) : ∀ x ∈ sentBytes (polls k), x = 5 ∨ x = 0 := by
  induction k with
  | zero => simp [polls, sentBytes]
  | succ n ih =>
    intro x hx
    rw [polls, sentBytes_append] at hx
    rcases List.mem_append.mp hx with h | h
    · simp [pollTxn, sentBytes, CMD_READSTAT1] at h
      exact h
    · exact ih x h

/-- One poll of the ready-wait loop: the state after `select, 0x05, 0x00,
deselect` and the clock reading. -/
theorem poll_state (P : Platform) (s : St) :
    (millis P (chipDeselect (spi_xfer P 0 (cmd P CMD_READSTAT1 s)).2)).2 =
      { s with cs := false, trace := s.trace ++ pollTxn, ticks := s.ticks + 1 } := by
  simp [millis, chipDeselect, spi_xfer, cmd, chipSelect, pollTxn, CMD_READSTAT1]

/-- Whenever the ready-wait loop returns, it has made `k ≥ 1` polls (at most
`fuel`), left the chip deselected, and changed nothing but the trace and the
number of clock readings. -/
theorem waitLoop_state (P : Platform) (T st : Nat) :
    ∀ (fuel : Nat) (s : St) (b : Bool) (s1 : St),
      waitLoop P T st fuel s = some (b, s1) →
      ∃ k, 1 ≤ k ∧ k ≤ fuel ∧
        s1 = { s with cs := false, trace := s.trace ++ polls k, ticks := s.ticks + k } := by
  intro fuel
  induction fuel with
  | zero => intro s b s1 h; simp [waitLoop] at h
  | succ n ih =>
    intro s b s1 h
    rw [waitLoop] at h
    simp only [poll_state] at h
    split at h
    · refine ⟨1, le_refl _, by omega, ?_⟩
      simp only [Option.some.injEq, Prod.mk.injEq] at h
      rw [← h.2]
      simp [polls]
    · split at h
      · obtain ⟨k, hk1, hk2, hs⟩ := ih _ b s1 h
        refine ⟨k + 1, by omega, by omega, ?_⟩
        rw [hs]
        simp [polls, Nat.add_assoc, Nat.add_comm 1 k]
      · refine ⟨1, le_refl _, by omega, ?_⟩
        simp only [Option.some.injEq, Prod.mk.injEq] at h
        rw [← h.2]
        simp [polls]

/-- Whenever `waitForReady` returns, it has read the clock once, made `k ≥ 1`
polls, left the chip deselected and changed nothing else. -/
theorem waitForReady_state (P : Platform) (T fuel : Nat) (s : St) (b : Bool) (s1 : St)
    (h : waitForReady P T fuel s = some (b, s1)) :
    ∃ k, 1 ≤ k ∧ k ≤ fuel ∧
      s1 = { s with cs := false, trace := s.trace ++ polls k, ticks := s.ticks + 1 + k } := by
  obtain ⟨k, hk1, hk2, hs⟩ := waitLoop_state P T _ fuel _ b s1 h
  exact ⟨k, hk1, hk2, by rw [hs]; simp [millis]⟩

/-! ## Out-of-range addresses -/

/-- C1: for every capacity and every address `a ≥ capacity`, `writePage` and
`beginRead` return `false` and leave the whole driver state, in particular the
bus trace, exactly as it was: nothing is selected, deselected or exchanged, and
the clock is not even read.  This holds for every amount of fuel. -/
theorem out_of_range_no_bus (P : Platform) (fuel a : Nat) (data : Nat → Nat) (s : St)
    (h : s.capacity ≤ a) :
    writePage P fuel a data s = some (false, s) ∧
    beginRead P fuel a s = some (false, s) := by
  constructor
  · simp [writePage, h]
  · simp [beginRead, h]

/-- C1, exercised on an unidentified device (capacity 0) at address 0 and on a
1 MiB device at its first out-of-range address. -/
theorem out_of_range_no_bus_witness :
    ((initSt 0).capacity ≤ 0 ∧
      writePage (w25q80 idleChip id) 7 0 (fun i => i) (initSt 0) = some (false, initSt 0) ∧
      beginRead (w25q80 idleChip id) 7 0 (initSt 0) = some (false, initSt 0)) ∧
    ((initSt 1048576).capacity ≤ 1048576 ∧
      writePage (w25q80 idleChip id) 7 1048576 (fun i => i) (initSt 1048576)
        = some (false, initSt 1048576) ∧
      beginRead (w25q80 idleChip id) 7 1048576 (initSt 1048576)
        = some (false, initSt 1048576)) :=
  ⟨⟨Nat.le_refl _, out_of_range_no_bus _ 7 0 _ (initSt 0) (Nat.le_refl _)⟩,
   ⟨Nat.le_refl _, out_of_range_no_bus _ 7 1048576 _ (initSt 1048576) (Nat.le_refl _)⟩⟩

/-- C2: `eraseSector` has no address check.  On a 1 MiB device whose chip is
ready and latches write-enable, `eraseSector(0x100000)` (the first address past
the end) returns `true` after sending the sector-erase command `0x20` with
address bytes `0x10, 0x00, 0x00`; on an unidentified device (capacity 0) it
does the same for address 0. -/
theorem eraseSector_out_of_range_erases :
    eraseSector (w25q80 latchedChip id) 1 0x100000 (initSt 1048576) =
      some (true,
        { capacity := 1048576, cs := false, ticks := 4, slept := 0,
          trace :=
            [Ev.select, Ev.xfer 0x05, Ev.xfer 0, Ev.deselect,
             Ev.select, Ev.xfer 0x06, Ev.deselect,
             Ev.select, Ev.xfer 0x05, Ev.xfer 0, Ev.deselect,
             Ev.select, Ev.xfer 0x20, Ev.xfer 0x10, Ev.xfer 0, Ev.xfer 0, Ev.deselect,
             Ev.select, Ev.xfer 0x05, Ev.xfer 0, Ev.deselect,
             Ev.select, Ev.xfer 0x04, Ev.deselect] }) ∧
    (eraseSector (w25q80 latchedChip id) 1 0 (initSt 0)).map
        (fun r => (r.1, sentBytes r.2.trace)) =
      some (true, [0x05, 0, 0x06, 0x05, 0, 0x20, 0, 0, 0, 0x05, 0, 0x04]) := by
  constructor <;> decide

/-! ## Streaming read against the reference chip -/

theorem openTxn_append (h l : List Ev) : openTxn (h ++ l) = l.foldl txnStep (openTxn h) := by
  simp [openTxn, List.foldl_append]

/-- A first poll that reads BUSY clear within the timeout ends the wait with
success after that single poll. -/
theorem waitForReady_first_poll (P : Platform) (T fuel : Nat) (s : St)
    (hready : P.chip (s.trace ++ [Ev.select, Ev.xfer CMD_READSTAT1]) 0 % 2 = 0)
    (hclk : sub32 (P.clock (s.ticks + 1) % 2 ^ 32) (P.clock s.ticks % 2 ^ 32) ≤ T) :
    waitForReady P T (fuel + 1) s =
      some (true, { s with cs := false, trace := s.trace ++ pollTxn, ticks := s.ticks + 2 }) := by
  have hst : (P.chip (s.trace ++ [Ev.select, Ev.xfer 5]) 0 % 256) % 2 = 0 := by
    have := hready
    simp only [CMD_READSTAT1] at this
    omega
  have hclk2 : sub32 (P.clock (s.ticks + 1) % 4294967296) (P.clock s.ticks % 4294967296) ≤ T := by
    simpa using hclk
  simp [waitForReady, waitLoop, millis, chipDeselect, spi_xfer, cmd, chipSelect, pollTxn,
    CMD_READSTAT1, STAT_BUSY, hclk2, hst]

/-- The three address bytes sent by `beginRead` determine a 24-bit address. -/
theorem addr_bytes (a : Nat) (h : a < 2 ^ 24) :
    (a >>> 16) % 256 * 65536 + (a >>> 8) % 256 * 256 + a % 256 = a := by
  simp only [Nat.shiftRight_eq_div_pow]
  norm_num at h ⊢
  omega

theorem begin_le (P : Platform) (s : St) : (begin P s).1 ≤ 2 ^ 24 := by
  simp only [begin]
  split_ifs <;> decide

/-- Inside an open read transaction the reference chip streams its memory:
`n` calls of `readNextByte` return the next `n` bytes and only add `n` dummy
exchanges to the trace. -/
theorem readBytes_ref (P : Platform) (mem : Nat → Nat) (hchip : P.chip = refChip mem)
    (hmem : ∀ i, mem i < 256) (a2 a1 a0 : Nat) :
    ∀ (n : Nat) (s : St) (rest : List Nat),
      openTxn s.trace = some (3 :: a2 :: a1 :: a0 :: rest) →
      readBytes P n s =
        ((List.range n).map (fun i => mem (a2 * 65536 + a1 * 256 + a0 + rest.length + i)),
         { s with trace := s.trace ++ List.replicate n (Ev.xfer 0) }) := by
  intro n
  induction n with
  | zero => intro s rest _; simp [readBytes]
  | succ n ih =>
    intro s rest h
    have hnext : openTxn (spi_xfer P 0 s).2.trace = some (3 :: a2 :: a1 :: a0 :: (rest ++ [0])) := by
      simp [spi_xfer, openTxn_append, txnStep, h]
    have hbyte : (spi_xfer P 0 s).1 = mem (a2 * 65536 + a1 * 256 + a0 + rest.length) := by
      simp [spi_xfer, hchip, refChip, h, Nat.mod_eq_of_lt (hmem _)]
    rw [readBytes, readNextByte, ih _ _ hnext, hbyte]
    simp only [List.range_succ_eq_map, List.map_cons, List.map_map, Prod.mk.injEq]
    refine ⟨?_, ?_⟩
    · simp [Function.comp_def, Nat.add_assoc, Nat.add_comm 1]
    · simp [spi_xfer, List.replicate_succ]

/-- The state `beginRead` returns on success when the ready-wait needed a
single poll. -/
theorem beginRead_after_one_poll (P : Platform) (fuel a : Nat) (s : St)
    (ha : a < s.capacity)
    (hw : waitForReady P P.defaultTimeout (fuel + 1) s =
      some (true, { s with cs := false, trace := s.trace ++ pollTxn, ticks := s.ticks + 2 })) :
    beginRead P (fuel + 1) a s =
      some (true,
        { s with
          cs := true
          trace := s.trace ++ pollTxn ++
            [Ev.select, Ev.xfer 3, Ev.xfer ((a >>> 16) % 256), Ev.xfer ((a >>> 8) % 256),
             Ev.xfer (a % 256)]
          ticks := s.ticks + 2 }) := by
  simp [beginRead, Nat.not_le.mpr ha, hw, cmd, spi_xfer, chipSelect, CMD_READDATA]

/-- The streaming read when the ready-wait is in time.  Against the reference
chip with memory `mem`, on a device
whose capacity was set by `begin()`, for every address `a < capacity` and every
`N`: provided the 32-bit millisecond counter advanced by no more than the
default timeout between the start reading of the ready-wait and its first
timeout check, `beginRead(a)` returns `true`, the `N` following
`readNextByte()` calls return `mem[a], ..., mem[a+N-1]` in order, the chip is
selected after `beginRead` and after every one of those calls, the trace from
the read command on is `select, 0x03, a2, a1, a0` followed by `N` dummy
exchanges with no deselect among them, and `endRead()` appends the one
deselect. -/
theorem read_stream_ref (P : Platform) (mem : Nat → Nat) (s0 : St) (fuel a N : Nat)
    (hchip : P.chip = refChip mem) (hmem : ∀ i, mem i < 256)
    (ha : a < (begin P s0).1)
    (hclk : sub32 (P.clock (s0.ticks + 1) % 2 ^ 32) (P.clock s0.ticks % 2 ^ 32)
      ≤ P.defaultTimeout) :
    ∃ s1, beginRead P (fuel + 1) a (begin P s0).2 = some (true, s1) ∧
      s1.cs = true ∧
      (readBytes P N s1).1 = (List.range N).map (fun i => mem (a + i)) ∧
      (∀ k, k ≤ N → (readBytes P k s1).2.cs = true) ∧
      (readBytes P N s1).2.trace =
        s0.trace ++ pollTxn ++
          [Ev.select, Ev.xfer 3, Ev.xfer ((a >>> 16) % 256), Ev.xfer ((a >>> 8) % 256),
           Ev.xfer (a % 256)] ++ List.replicate N (Ev.xfer 0) ∧
      (endRead (readBytes P N s1).2).cs = false ∧
      (endRead (readBytes P N s1).2).trace = (readBytes P N s1).2.trace ++ [Ev.deselect] := by
  have ha24 : a < 2 ^ 24 := lt_of_lt_of_le ha (begin_le P s0)
  have hready : P.chip ((begin P s0).2.trace ++ [Ev.select, Ev.xfer CMD_READSTAT1]) 0 % 2 = 0 := by
    simp [hchip, refChip, openTxn_append, txnStep, CMD_READSTAT1]
  have hw := waitForReady_first_poll P P.defaultTimeout fuel (begin P s0).2 hready hclk
  have hb := beginRead_after_one_poll P fuel a (begin P s0).2 ha hw
  refine ⟨_, hb, rfl, ?_⟩
  have hopen : ∀ (s : St) (t : List Ev) (c : Bool) (k : Nat),
      openTxn ({ s with cs := c, trace := t ++
          [Ev.select, Ev.xfer 3, Ev.xfer ((a >>> 16) % 256), Ev.xfer ((a >>> 8) % 256),
           Ev.xfer (a % 256)], ticks := k } : St).trace =
        some (3 :: (a >>> 16) % 256 :: (a >>> 8) % 256 :: a % 256 :: []) := by
    intro s t c k
    simp [openTxn_append, txnStep]
  have hrd := fun n => readBytes_ref P mem hchip hmem ((a >>> 16) % 256) ((a >>> 8) % 256)
    (a % 256) n _ [] (hopen (begin P s0).2 ((begin P s0).2.trace ++ pollTxn) true
      ((begin P s0).2.ticks + 2))
  simp only [addr_bytes a ha24, List.length_nil, Nat.add_zero] at hrd
  refine ⟨by rw [hrd N], fun k _ => by rw [hrd k], by rw [hrd N]; simp [begin], ?_, rfl⟩
  simp [endRead, chipDeselect]

/-- The in-time streaming read, exercised on a 1 MiB device holding `rampMem`, with a clock
that advances 1 ms per reading: three bytes read from address `0x012345`. -/
theorem read_stream_ref_witness :
    ((w25q80 (refChip rampMem) id).chip = refChip rampMem ∧ (∀ i, rampMem i < 256) ∧
      0x012345 < (begin (w25q80 (refChip rampMem) id) (initSt 0)).1 ∧
      sub32 ((w25q80 (refChip rampMem) id).clock ((initSt 0).ticks + 1) % 2 ^ 32)
          ((w25q80 (refChip rampMem) id).clock (initSt 0).ticks % 2 ^ 32)
        ≤ (w25q80 (refChip rampMem) id).defaultTimeout) ∧
    ∃ s1, beginRead (w25q80 (refChip rampMem) id) (0 + 1) 0x012345
          (begin (w25q80 (refChip rampMem) id) (initSt 0)).2 = some (true, s1) ∧
      s1.cs = true ∧
      (readBytes (w25q80 (refChip rampMem) id) 3 s1).1 =
        (List.range 3).map (fun i => rampMem (0x012345 + i)) ∧
      (∀ k, k ≤ 3 → (readBytes (w25q80 (refChip rampMem) id) k s1).2.cs = true) ∧
      (readBytes (w25q80 (refChip rampMem) id) 3 s1).2.trace =
        (initSt 0).trace ++ pollTxn ++
          [Ev.select, Ev.xfer 3, Ev.xfer ((0x012345 >>> 16) % 256),
           Ev.xfer ((0x012345 >>> 8) % 256), Ev.xfer (0x012345 % 256)] ++
          List.replicate 3 (Ev.xfer 0) ∧
      (endRead (readBytes (w25q80 (refChip rampMem) id) 3 s1).2).cs = false ∧
      (endRead (readBytes (w25q80 (refChip rampMem) id) 3 s1).2).trace =
        (readBytes (w25q80 (refChip rampMem) id) 3 s1).2.trace ++ [Ev.deselect] :=
  ⟨⟨rfl, fun i => Nat.mod_lt _ (by decide), by decide, by decide⟩,
   read_stream_ref (w25q80 (refChip rampMem) id) rampMem (initSt 0) 0 0x012345 3 rfl
     (fun i => Nat.mod_lt _ (by decide)) (by decide) (by decide)⟩

/-- C3: the streaming read inherits the order of the tests in `waitForReady`
(timeout before BUSY).  On a 1 MiB device with the reference chip (status
`0x00`, not busy) and a millisecond counter that reads 0 at the start of the
ready-wait and 101 at its first timeout check, `beginRead(0)` returns `false`
after a single status poll, never sends the read command, and the chip stays
deselected, where the claim has it return `true`.  With the same chip and a
clock that advances 1 ms per reading, `beginRead(0)` returns `true` and the
three following `readNextByte()` calls return `mem[0], mem[1], mem[2]`. -/
theorem read_stream_ref_slow_clock :
    (0 < (begin (w25q80 (refChip rampMem) slowClock) (initSt 0)).1 ∧
      refChip rampMem [Ev.select, Ev.xfer 0x05] 0 = 0) ∧
    beginRead (w25q80 (refChip rampMem) slowClock) 3 0
        (begin (w25q80 (refChip rampMem) slowClock) (initSt 0)).2 =
      some (false,
        { capacity := 1048576, cs := false, ticks := 2, slept := 0,
          trace := [Ev.select, Ev.xfer 0x05, Ev.xfer 0, Ev.deselect] }) ∧
    (beginRead (w25q80 (refChip rampMem) id) 3 0
        (begin (w25q80 (refChip rampMem) id) (initSt 0)).2).map
        (fun r => (r.1, (readBytes (w25q80 (refChip rampMem) id) 3 r.2).1)) =
      some (true, [rampMem 0, rampMem 1, rampMem 2]) := by
  refine ⟨⟨by decide, by decide⟩, by decide, by decide⟩

/-! ## Page program -/

/-- The data loop of `writePage` sends `data[0], ..., data[n-1]` in order and
touches nothing but the trace. -/
theorem sendData_state (P : Platform) (data : Nat → Nat) (n : Nat) (s : St) :
    sendData P data n s =
      { s with trace := s.trace ++ (List.range n).map (fun i => Ev.xfer (data i % 256)) } := by
  induction n with
  | zero => simp [sendData]
  | succ n ih =>
    have hstep : sendData P data (n + 1) s = (spi_xfer P (data n) (sendData P data n s)).2 := by
      simp [sendData, List.range_succ, List.foldl_append]
    rw [hstep, ih]
    simp [spi_xfer, List.range_succ]

/-- The state of `writeEnable` after its two transactions. -/
theorem writeEnable_state (P : Platform) (s : St) :
    (writeEnable P s).2 =
      { s with
        cs := false
        trace := s.trace ++
          [Ev.select, Ev.xfer 6, Ev.deselect, Ev.select, Ev.xfer 5, Ev.xfer 0, Ev.deselect] } := by
  simp [writeEnable, chipDeselect, cmd, spi_xfer, chipSelect, CMD_WRITEENABLE, CMD_READSTAT1]

/-- The state of `writeDisable` after its transaction. -/
theorem writeDisable_state (P : Platform) (s : St) :
    writeDisable P s =
      { s with cs := false, trace := s.trace ++ [Ev.select, Ev.xfer 4, Ev.deselect] } := by
  simp [writeDisable, chipDeselect, cmd, spi_xfer, chipSelect, CMD_WRITEDISABLE]

/-- Only the low 8 bits of its argument matter to `spi_xfer`. -/
theorem spi_xfer_congr (P : Platform) (m n : Nat) (h : m % 256 = n % 256) :
    spi_xfer P m = spi_xfer P n := by
  funext s
  simp [spi_xfer, h]

/-- C4: for every address `a < capacity` and every buffer `data`, when the
initial ready-wait and the write-enable succeed, `writePage(a, data)` performs,
right after the write-enable, the program transaction
`select, 0x02, (a >> 16) mod 256, (a >> 8) mod 256, 0x00, data[0], ..., data[255], deselect`
(256 data bytes in buffer order, low address byte 0), sleeps 3 ms and starts
the final ready-wait; whenever it returns, the trace it leaves is that of the
write-enable, this one program transaction, `k` status polls and, on success,
the write-disable transaction.  The call with the low 8 bits of `a` cleared
behaves identically. -/
theorem writePage_program (P : Platform) (fuel a : Nat) (data : Nat → Nat) (s s1 : St)
    (ha : a < s.capacity)
    (hw : waitForReady P P.defaultTimeout fuel s = some (true, s1))
    (hen : (writeEnable P s1).1 = true) :
    ∃ txn s8,
      txn = [Ev.select, Ev.xfer 0x02, Ev.xfer ((a >>> 16) % 256), Ev.xfer ((a >>> 8) % 256),
             Ev.xfer 0] ++ (List.range 256).map (fun i => Ev.xfer (data i % 256)) ++
            [Ev.deselect] ∧
      s8 = { (writeEnable P s1).2 with
             cs := false
             trace := (writeEnable P s1).2.trace ++ txn
             slept := s1.slept + 3 } ∧
      writePage P fuel a data s =
        (match waitForReady P P.defaultTimeout fuel s8 with
         | none => none
         | some (done, s9) => if done then some (true, writeDisable P s9) else some (false, s9)) ∧
      (∀ b s9, writePage P fuel a data s = some (b, s9) →
        ∃ k, s9.trace = (writeEnable P s1).2.trace ++ txn ++ polls k ++
          (if b then [Ev.select, Ev.xfer 0x04, Ev.deselect] else [])) ∧
      writePage P fuel (a - a % 256) data s = writePage P fuel a data s := by
  have hlow : a - a % 256 < s.capacity := by omega
  have h16 : ((a - a % 256) >>> 16) % 256 = (a >>> 16) % 256 := by
    simp only [Nat.shiftRight_eq_div_pow]; norm_num; omega
  have h8 : ((a - a % 256) >>> 8) % 256 = (a >>> 8) % 256 := by
    simp only [Nat.shiftRight_eq_div_pow]; norm_num; omega
  have hunfold : writePage P fuel a data s =
      (match waitForReady P P.defaultTimeout fuel
          { (writeEnable P s1).2 with
            cs := false
            trace := (writeEnable P s1).2.trace ++
              ([Ev.select, Ev.xfer 0x02, Ev.xfer ((a >>> 16) % 256), Ev.xfer ((a >>> 8) % 256),
                Ev.xfer 0] ++ (List.range 256).map (fun i => Ev.xfer (data i % 256)) ++
                [Ev.deselect])
            slept := s1.slept + 3 } with
       | none => none
       | some (done, s9) => if done then some (true, writeDisable P s9) else some (false, s9)) := by
    have hs8 : delay 3 (chipDeselect (sendData P data 256
        (spi_xfer P 0 (spi_xfer P (a >>> 8) (spi_xfer P (a >>> 16)
          (cmd P CMD_PAGEPROG (writeEnable P s1).2)).2).2).2)) =
        { (writeEnable P s1).2 with
          cs := false
          trace := (writeEnable P s1).2.trace ++
            ([Ev.select, Ev.xfer 0x02, Ev.xfer ((a >>> 16) % 256), Ev.xfer ((a >>> 8) % 256),
              Ev.xfer 0] ++ (List.range 256).map (fun i => Ev.xfer (data i % 256)) ++
              [Ev.deselect])
          slept := s1.slept + 3 } := by
      simp only [sendData_state, writeEnable_state, delay, chipDeselect, cmd, spi_xfer,
        chipSelect, CMD_PAGEPROG, List.append_assoc, List.cons_append, List.nil_append,
        Nat.zero_mod, Nat.reduceMod]
    simp only [writePage, ge_iff_le, Nat.not_le.mpr ha, if_false, hw, hen, Bool.not_true,
      Bool.false_eq_true, hs8]
    generalize waitForReady P P.defaultTimeout fuel _ = r
    rcases r with _ | ⟨done, s9⟩
    · rfl
    · cases done <;> rfl
  refine ⟨_, _, rfl, rfl, hunfold, ?_, ?_⟩
  · intro b s9 hres
    rw [hunfold] at hres
    split at hres
    · simp at hres
    · rename_i done s10 hfin
      obtain ⟨k, _, _, hs10⟩ := waitForReady_state P _ _ _ _ _ hfin
      refine ⟨k, ?_⟩
      cases done
      · simp only [Bool.false_eq_true, if_false, Option.some.injEq, Prod.mk.injEq] at hres
        rw [← hres.2, ← hres.1, hs10]
        simp
      · simp only [if_true, Option.some.injEq, Prod.mk.injEq] at hres
        rw [← hres.2, ← hres.1, hs10, writeDisable_state]
        simp
  · simp only [writePage, ge_iff_le, Nat.not_le.mpr ha, Nat.not_le.mpr hlow, if_false,
      spi_xfer_congr P _ _ h16, spi_xfer_congr P _ _ h8]

/-- C4, exercised on a 1 MiB device whose chip is ready and latches
write-enable: `writePage(0x012345, rampMem)`. -/
theorem writePage_program_witness :
    (0x012345 < (initSt 1048576).capacity ∧
      waitForReady (w25q80 latchedChip id) (w25q80 latchedChip id).defaultTimeout 1
        (initSt 1048576) = some (true, afterOnePoll) ∧
      (writeEnable (w25q80 latchedChip id) afterOnePoll).1 = true) ∧
    ∃ txn s8,
      txn = [Ev.select, Ev.xfer 0x02, Ev.xfer ((0x012345 >>> 16) % 256),
             Ev.xfer ((0x012345 >>> 8) % 256), Ev.xfer 0] ++
            (List.range 256).map (fun i => Ev.xfer (rampMem i % 256)) ++ [Ev.deselect] ∧
      s8 = { (writeEnable (w25q80 latchedChip id) afterOnePoll).2 with
             cs := false
             trace := (writeEnable (w25q80 latchedChip id) afterOnePoll).2.trace ++ txn
             slept := afterOnePoll.slept + 3 } ∧
      writePage (w25q80 latchedChip id) 1 0x012345 rampMem (initSt 1048576) =
        (match waitForReady (w25q80 latchedChip id) (w25q80 latchedChip id).defaultTimeout 1 s8 with
         | none => none
         | some (done, s9) =>
           if done then some (true, writeDisable (w25q80 latchedChip id) s9)
           else some (false, s9)) ∧
      (∀ b s9, writePage (w25q80 latchedChip id) 1 0x012345 rampMem (initSt 1048576)
          = some (b, s9) →
        ∃ k, s9.trace = (writeEnable (w25q80 latchedChip id) afterOnePoll).2.trace ++ txn ++
          polls k ++ (if b then [Ev.select, Ev.xfer 0x04, Ev.deselect] else [])) ∧
      writePage (w25q80 latchedChip id) 1 (0x012345 - 0x012345 % 256) rampMem (initSt 1048576) =
        writePage (w25q80 latchedChip id) 1 0x012345 rampMem (initSt 1048576) :=
  ⟨⟨by decide, by decide, by decide⟩,
   writePage_program (w25q80 latchedChip id) 1 0x012345 rampMem (initSt 1048576) afterOnePoll
     (by decide) (by decide) (by decide)⟩

/-! ## Write-enable and the erase short-circuit -/

/-- The mask `STAT_WRTEN` tests bit 1 and nothing else. -/
theorem land_wrten (x : Nat) : (x &&& STAT_WRTEN ≠ 0) ↔ x.testBit 1 = true := by
  have h := Nat.and_two_pow x 1
  simp only [pow_one] at h
  rw [STAT_WRTEN, h]
  cases x.testBit 1 <;> simp

/-- The result of `writeEnable` is bit 1 of the status byte it re-reads. -/
theorem writeEnable_result (P : Platform) (s : St) :
    (writeEnable P s).1 =
      (P.chip (s.trace ++ [Ev.select, Ev.xfer 0x06, Ev.deselect, Ev.select, Ev.xfer 0x05]) 0
        % 256).testBit 1 := by
  have hst : (spi_xfer P 0 (cmd P CMD_READSTAT1 (chipDeselect (cmd P CMD_WRITEENABLE s)))).1 =
      P.chip (s.trace ++ [Ev.select, Ev.xfer 0x06, Ev.deselect, Ev.select, Ev.xfer 0x05]) 0
        % 256 := by
    simp [chipDeselect, cmd, spi_xfer, chipSelect, CMD_WRITEENABLE, CMD_READSTAT1]
  simp only [writeEnable, hst]
  by_cases hb : (P.chip (s.trace ++ [Ev.select, Ev.xfer 0x06, Ev.deselect, Ev.select,
      Ev.xfer 0x05]) 0 % 256).testBit 1 = true
  · rw [if_pos ((land_wrten _).mpr hb), hb]
  · rw [if_neg (fun h => hb ((land_wrten _).mp h))]
    simpa using hb

/-- C6: for every chip behaviour, `writeEnable()` adds to the bus trace exactly
`select, 0x06, deselect, select, 0x05, 0x00, deselect` (one status re-read after
the enable command) and changes nothing else but leaving the chip deselected;
its result is bit 1 (mask `0x02`, WRITE-ENABLED) of the status byte received in
the exchange of `0x00`, whatever the other bits of that byte are. -/
theorem writeEnable_spec (P : Platform) (s : St) :
    (writeEnable P s).2 =
      { s with
        cs := false
        trace := s.trace ++
          [Ev.select, Ev.xfer 0x06, Ev.deselect,
           Ev.select, Ev.xfer 0x05, Ev.xfer 0x00, Ev.deselect] } ∧
    (writeEnable P s).1 =
      (P.chip (s.trace ++ [Ev.select, Ev.xfer 0x06, Ev.deselect, Ev.select, Ev.xfer 0x05]) 0
        % 256).testBit 1 ∧
    ((writeEnable P s).1 = true ↔
      (P.chip (s.trace ++ [Ev.select, Ev.xfer 0x06, Ev.deselect, Ev.select, Ev.xfer 0x05]) 0
        % 256) / 2 % 2 = 1) := by
  refine ⟨writeEnable_state P s, writeEnable_result P s, ?_⟩
  rw [writeEnable_result, Nat.testBit_to_div_mod]
  simp

/-- C5: for `eraseChip()` and for `eraseSector(a)` with any `a`: if the initial
`waitForReady` returns `false`, or it returns `true` and the status byte
re-read by `writeEnable` has bit 1 clear, then both operations return `false`
in the same state, and the bus trace they produced contains neither erase
opcode (`0x60`, `0x20`); when the initial wait failed, the write-enable opcode
`0x06` is not in it either. -/
theorem erase_short_circuit (P : Platform) (fuel a : Nat) (s : St) (b : Bool) (s1 : St)
    (hw : waitForReady P P.defaultTimeout fuel s = some (b, s1))
    (hfail : b = false ∨
      (P.chip (s1.trace ++ [Ev.select, Ev.xfer 0x06, Ev.deselect, Ev.select, Ev.xfer 0x05]) 0
        % 256).testBit 1 = false) :
    ∃ s2 t, eraseChip P fuel s = some (false, s2) ∧
      eraseSector P fuel a s = some (false, s2) ∧
      s2.trace = s.trace ++ t ∧
      0x60 ∉ sentBytes t ∧ 0x20 ∉ sentBytes t ∧
      (b = false → 0x06 ∉ sentBytes t) := by
  obtain ⟨k, _, _, hs1⟩ := waitForReady_state P _ _ _ _ _ hw
  have hpolls : ∀ x, x ≠ 5 → x ≠ 0 → x ∉ sentBytes (polls k) := by
    intro x h5 h0 hx
    rcases sentBytes_polls k x hx with h | h
    · exact h5 h
    · exact h0 h
  cases b with
  | false =>
    refine ⟨s1, polls k, by simp [eraseChip, hw], by simp [eraseSector, hw], ?_, ?_, ?_, ?_⟩
    · rw [hs1]
    · exact hpolls _ (by decide) (by decide)
    · exact hpolls _ (by decide) (by decide)
    · intro _
      exact hpolls _ (by decide) (by decide)
  | true =>
    have hbit := hfail.resolve_left (by decide)
    have hen : (writeEnable P s1).1 = false := by rw [writeEnable_result, hbit]
    refine ⟨(writeEnable P s1).2,
      polls k ++ [Ev.select, Ev.xfer 0x06, Ev.deselect, Ev.select, Ev.xfer 0x05, Ev.xfer 0x00,
        Ev.deselect],
      by simp [eraseChip, hw, hen], by simp [eraseSector, hw, hen], ?_, ?_, ?_, ?_⟩
    · rw [writeEnable_state, hs1]
      simp
    · rw [sentBytes_append, List.mem_append]
      rintro (h | h)
      · exact hpolls _ (by decide) (by decide) h
      · simp [sentBytes] at h
    · rw [sentBytes_append, List.mem_append]
      rintro (h | h)
      · exact hpolls _ (by decide) (by decide) h
      · simp [sentBytes] at h
    · intro h
      cases h

/-- C5, exercised twice on a 1 MiB device: with an always-busy chip and a slow
clock the initial wait times out; with an idle chip (status `0x00`) the wait
succeeds and write-enable is not confirmed. -/
theorem erase_short_circuit_witness :
    ((waitForReady (w25q80 busyChip slowClock) (w25q80 busyChip slowClock).defaultTimeout 2
          (initSt 1048576) =
        some (false, afterOnePoll)) ∧
      ∃ s2 t, eraseChip (w25q80 busyChip slowClock) 2 (initSt 1048576) = some (false, s2) ∧
        eraseSector (w25q80 busyChip slowClock) 2 0x1000 (initSt 1048576) = some (false, s2) ∧
        s2.trace = (initSt 1048576).trace ++ t ∧
        0x60 ∉ sentBytes t ∧ 0x20 ∉ sentBytes t ∧ (false = false → 0x06 ∉ sentBytes t)) ∧
    ((waitForReady (w25q80 idleChip id) (w25q80 idleChip id).defaultTimeout 2
          (initSt 1048576) = some (true, afterOnePoll) ∧
        ((w25q80 idleChip id).chip (afterOnePoll.trace ++
            [Ev.select, Ev.xfer 0x06, Ev.deselect, Ev.select, Ev.xfer 0x05]) 0
          % 256).testBit 1 = false) ∧
      ∃ s2 t, eraseChip (w25q80 idleChip id) 2 (initSt 1048576) = some (false, s2) ∧
        eraseSector (w25q80 idleChip id) 2 0x1000 (initSt 1048576) = some (false, s2) ∧
        s2.trace = (initSt 1048576).trace ++ t ∧
        0x60 ∉ sentBytes t ∧ 0x20 ∉ sentBytes t ∧ (true = false → 0x06 ∉ sentBytes t)) :=
  ⟨⟨by decide,
    erase_short_circuit (w25q80 busyChip slowClock) 2 0x1000 (initSt 1048576) false
      afterOnePoll (by decide) (Or.inl rfl)⟩,
   ⟨⟨by decide, by decide⟩,
    erase_short_circuit (w25q80 idleChip id) 2 0x1000 (initSt 1048576) true afterOnePoll
      (by decide) (Or.inr (by decide))⟩⟩

/-! ## Identification -/

/-- C7: `begin()` stores the value it returns as the device capacity and
changes nothing else; that value is 1 MiB, 2 MiB, 4 MiB, 8 MiB or 16 MiB for
the identifiers `0xEF4014` to `0xEF4018` and 0 for every other identifier; and
it is the bound the later address checks of `beginRead` and `writePage` use:
every address at or above it is refused without bus traffic. -/
theorem begin_table (P : Platform) (s : St) :
    (begin P s).2 = { s with capacity := (begin P s).1 } ∧
    (P.jedecID = 0xEF4014 → (begin P s).1 = 1048576) ∧
    (P.jedecID = 0xEF4015 → (begin P s).1 = 2097152) ∧
    (P.jedecID = 0xEF4016 → (begin P s).1 = 4194304) ∧
    (P.jedecID = 0xEF4017 → (begin P s).1 = 8 * 1024 * 1024) ∧
    (P.jedecID = 0xEF4018 → (begin P s).1 = 16777216) ∧
    (P.jedecID ∉ [0xEF4014, 0xEF4015, 0xEF4016, 0xEF4017, 0xEF4018] → (begin P s).1 = 0) ∧
    (∀ fuel a data, (begin P s).1 ≤ a →
      beginRead P fuel a (begin P s).2 = some (false, (begin P s).2) ∧
      writePage P fuel a data (begin P s).2 = some (false, (begin P s).2)) := by
  refine ⟨rfl, ?_, ?_, ?_, ?_, ?_, ?_, ?_⟩
  · intro h; simp [begin, h, CHIP_BYTES_W25Q80]
  · intro h; simp [begin, h, CHIP_BYTES_W25Q16]
  · intro h; simp [begin, h, CHIP_BYTES_W25Q32]
  · intro h; simp [begin, h, CHIP_BYTES_W25Q64]
  · intro h; simp [begin, h, CHIP_BYTES_W25Q128]
  · intro h
    simp only [List.mem_cons, List.mem_singleton, List.mem_nil_iff, or_false, not_or] at h
    simp [begin, h.1, h.2.1, h.2.2.1, h.2.2.2.1, h.2.2.2.2]
  · intro fuel a data h
    have hc : (begin P s).2.capacity ≤ a := h
    exact ⟨by simp [beginRead, hc], by simp [writePage, hc]⟩

/-- C7, exercised on the identifiers `0xEF4017` (8 MiB) and `0x000000`
(unrecognised, capacity 0, so that address 0 is already out of range). -/
theorem begin_table_witness :
    (begin (identified 0xEF4017) (initSt 0)).1 = 8 * 1024 * 1024 ∧
    (begin (identified 0x000000) (initSt 0)).1 = 0 ∧
    beginRead (identified 0x000000) 1 0 (begin (identified 0x000000) (initSt 0)).2 =
      some (false, (begin (identified 0x000000) (initSt 0)).2) :=
  ⟨(begin_table (identified 0xEF4017) (initSt 0)).2.2.2.2.1 rfl,
   (begin_table (identified 0x000000) (initSt 0)).2.2.2.2.2.2.1 (by decide),
   ((begin_table (identified 0x000000) (initSt 0)).2.2.2.2.2.2.2 1 0 (fun _ => 0)
      (Nat.le_refl _)).1⟩

/-! ## The ready-wait against a chip that stays busy -/

/-- The 32-bit difference of two counter readings is the true elapsed time as
long as that is below `2^32`. -/
theorem sub32_clock (c0 c1 : Nat) (hle : c0 ≤ c1) (hlt : c1 - c0 < 2 ^ 32) :
    sub32 (c1 % 2 ^ 32) (c0 % 2 ^ 32) = c1 - c0 := by
  simp only [sub32]
  norm_num at hlt ⊢
  omega

theorem sub32_lt (a b : Nat) : sub32 a b < 2 ^ 32 :=
  Nat.mod_lt _ (by decide)

/-- A status byte with bit 0 set keeps the loop of `waitForReady` going. -/
theorem busy_status (P : Platform) (hbusy : AlwaysBusy P) (s : St) :
    (spi_xfer P 0 (cmd P CMD_READSTAT1 s)).1 &&& STAT_BUSY ≠ 0 := by
  have h := hbusy s.trace
  have hst : (spi_xfer P 0 (cmd P CMD_READSTAT1 s)).1 =
      P.chip (s.trace ++ [Ev.select, Ev.xfer CMD_READSTAT1]) 0 % 256 := by
    simp [cmd, spi_xfer, chipSelect, CMD_READSTAT1]
  rw [hst, STAT_BUSY, Nat.and_one_is_mod]
  omega

/-- More fuel never changes a result already obtained. -/
theorem waitLoop_fuel_mono (P : Platform) (T st : Nat) :
    ∀ (fuel : Nat) (s : St) (r : Bool × St),
      waitLoop P T st fuel s = some r → ∀ d, waitLoop P T st (fuel + d) s = some r := by
  intro fuel
  induction fuel with
  | zero => intro s r h; simp [waitLoop] at h
  | succ n ih =>
    intro s r h d
    rw [Nat.add_right_comm, waitLoop]
    rw [waitLoop] at h
    by_cases hto : sub32 (millis P (chipDeselect (spi_xfer P 0 (cmd P CMD_READSTAT1 s)).2)).1 st > T
    · rw [if_pos hto] at h ⊢
      exact h
    · rw [if_neg hto] at h ⊢
      by_cases hb : (spi_xfer P 0 (cmd P CMD_READSTAT1 s)).1 &&& STAT_BUSY ≠ 0
      · rw [if_pos hb] at h ⊢
        exact ih _ _ h d
      · rw [if_neg hb] at h ⊢
        exact h

/-- Against an always-busy chip the loop runs until the first clock reading
whose 32-bit distance from the start reading exceeds the timeout: if that is
the reading of poll number `n + 1`, the loop returns `false` there. -/
theorem waitLoop_busy (P : Platform) (T st : Nat) (hbusy : AlwaysBusy P) :
    ∀ (n : Nat) (s : St),
      (∀ j, j < n → sub32 (P.clock (s.ticks + j) % 2 ^ 32) st ≤ T) →
      T < sub32 (P.clock (s.ticks + n) % 2 ^ 32) st →
      ∀ fuel, n + 1 ≤ fuel →
        waitLoop P T st fuel s =
          some (false, { s with cs := false, trace := s.trace ++ polls (n + 1),
                                ticks := s.ticks + (n + 1) }) := by
  intro n
  induction n with
  | zero =>
    intro s _ hlast fuel hfuel
    obtain ⟨f, rfl⟩ : ∃ f, fuel = f + 1 := ⟨fuel - 1, by omega⟩
    have hlast2 : T < sub32 (P.clock s.ticks % 2 ^ 32) st := by simpa using hlast
    rw [waitLoop]
    simp only [poll_state]
    rw [if_pos (by simpa [millis, chipDeselect, spi_xfer, cmd, chipSelect] using hlast2)]
    simp [polls]
  | succ n ih =>
    intro s hbefore hlast fuel hfuel
    obtain ⟨f, rfl⟩ : ∃ f, fuel = f + 1 := ⟨fuel - 1, by omega⟩
    have h0 : sub32 (P.clock s.ticks % 2 ^ 32) st ≤ T := by simpa using hbefore 0 (by omega)
    rw [waitLoop]
    simp only [poll_state]
    rw [if_neg (by simpa [millis, chipDeselect, spi_xfer, cmd, chipSelect] using h0),
      if_pos (busy_status P hbusy s)]
    rw [ih _ (fun j hj => by simpa [Nat.add_assoc, Nat.add_comm 1 j] using hbefore (j + 1) (by omega))
      (by simpa [Nat.add_assoc, Nat.add_comm 1 n] using hlast) f (by omega)]
    simp [polls, Nat.add_assoc, Nat.add_comm 1]

/-- Against an always-busy chip, a loop that never sees the 32-bit elapsed time
exceed the timeout never returns. -/
theorem waitLoop_never (P : Platform) (T st : Nat) (hbusy : AlwaysBusy P)
    (hnever : ∀ i, sub32 (P.clock i % 2 ^ 32) st ≤ T) :
    ∀ (fuel : Nat) (s : St), waitLoop P T st fuel s = none := by
  intro fuel
  induction fuel with
  | zero => intro s; rfl
  | succ n ih =>
    intro s
    rw [waitLoop]
    simp only [poll_state]
    rw [if_neg (by simpa [millis, chipDeselect, spi_xfer, cmd, chipSelect] using hnever s.ticks),
      if_pos (busy_status P hbusy s)]
    exact ih _

/-- C8 (amended): for every timeout `T` and every non-decreasing, unbounded
millisecond clock whose advance between two consecutive readings, added to `T`,
stays below `2^32` (so `T < 2^32 - 1`), against a status source whose every
read has BUSY set, `waitForReady(T)` returns after finitely many polls `k`
(every fuel of at least `k` gives the result), the result is `false` and never
`true`, and the time elapsed between its start reading and the reading at which
it returns exceeds `T`. -/
theorem waitForReady_busy_times_out (P : Platform) (T : Nat) (s : St)
    (hbusy : AlwaysBusy P) (hmono : Monotone P.clock) (hunb : ∀ B, ∃ i, B < P.clock i)
    (hstep : ∀ i, P.clock (i + 1) - P.clock i + T < 2 ^ 32) :
    ∃ k s1, 1 ≤ k ∧
      (∀ fuel, k ≤ fuel → waitForReady P T fuel s = some (false, s1)) ∧
      (∀ fuel b s2, waitForReady P T fuel s = some (b, s2) → b = false ∧ s2 = s1) ∧
      s1 = { s with cs := false, trace := s.trace ++ polls k, ticks := s.ticks + 1 + k } ∧
      T < P.clock (s.ticks + k) - P.clock s.ticks := by
  have hex : ∃ j, T < P.clock (s.ticks + j) - P.clock s.ticks := by
    obtain ⟨i, hi⟩ := hunb (P.clock s.ticks + T)
    have hle : s.ticks ≤ i := by
      by_contra hlt
      have := hmono (Nat.le_of_lt (Nat.lt_of_not_le hlt))
      omega
    exact ⟨i - s.ticks, by rw [Nat.add_sub_cancel' hle]; omega⟩
  have hk := Nat.find_spec hex
  have hmin : ∀ j, j < Nat.find hex → P.clock (s.ticks + j) - P.clock s.ticks ≤ T :=
    fun j hj => Nat.not_lt.mp (Nat.find_min hex hj)
  generalize Nat.find hex = k at hk hmin
  have hk1 : 1 ≤ k := by
    rcases k with _ | n
    · simp at hk
    · omega
  obtain ⟨n, rfl⟩ : ∃ n, k = n + 1 := ⟨k - 1, by omega⟩
  have hT : T < 2 ^ 32 := by have := hstep 0; omega
  have hup : ∀ j, P.clock s.ticks ≤ P.clock (s.ticks + j) := fun j => hmono (Nat.le_add_right _ _)
  have hbefore : ∀ j, j < n →
      sub32 (P.clock ((millis P s).2.ticks + j) % 2 ^ 32) (millis P s).1 ≤ T := by
    intro j hj
    have h1 := hmin (j + 1) (by omega)
    have h2 : (millis P s).2.ticks + j = s.ticks + (j + 1) := by simp [millis]; omega
    have h3 : (millis P s).1 = P.clock s.ticks % 2 ^ 32 := rfl
    rw [h2, h3, sub32_clock _ _ (hup _) (by omega)]
    exact h1
  have hlast : T < sub32 (P.clock ((millis P s).2.ticks + n) % 2 ^ 32) (millis P s).1 := by
    have h2 : (millis P s).2.ticks + n = s.ticks + (n + 1) := by simp [millis]; omega
    have h3 : (millis P s).1 = P.clock s.ticks % 2 ^ 32 := rfl
    have hprev : P.clock (s.ticks + n) - P.clock s.ticks ≤ T := by
      rcases n with _ | m
      · simp
      · exact hmin (m + 1) (by omega)
    have hst := hstep (s.ticks + n)
    have hmn : P.clock (s.ticks + n) ≤ P.clock (s.ticks + n + 1) := hmono (Nat.le_succ _)
    have hup1 := hup n
    have heq : s.ticks + (n + 1) = s.ticks + n + 1 := by omega
    rw [h2, h3, sub32_clock _ _ (hup _) (by rw [heq]; omega)]
    exact hk
  have hrun := waitLoop_busy P T (millis P s).1 hbusy n (millis P s).2 hbefore hlast
  have hs1 : ({ (millis P s).2 with
        cs := false, trace := (millis P s).2.trace ++ polls (n + 1),
        ticks := (millis P s).2.ticks + (n + 1) } : St) =
      { s with cs := false, trace := s.trace ++ polls (n + 1), ticks := s.ticks + 1 + (n + 1) } := by
    simp [millis]
  rw [hs1] at hrun
  refine ⟨n + 1, _, hk1, fun fuel hf => hrun fuel hf, ?_, rfl, hk⟩
  intro fuel b s2 hres
  have h1 := waitLoop_fuel_mono P T _ fuel _ _ hres (n + 1)
  have h2 := hrun (fuel + (n + 1)) (by omega)
  rw [h2] at h1
  simp only [Option.some.injEq, Prod.mk.injEq] at h1
  exact ⟨h1.1.symm, h1.2.symm⟩

/-- C8 (amended), exercised with a timeout of 100 ms on an always-busy chip
and a clock that advances 1 ms per reading. -/
theorem waitForReady_busy_times_out_witness :
    (AlwaysBusy (w25q80 busyChip id) ∧ Monotone (w25q80 busyChip id).clock ∧
      (∀ B, ∃ i, B < (w25q80 busyChip id).clock i) ∧
      (∀ i, (w25q80 busyChip id).clock (i + 1) - (w25q80 busyChip id).clock i + 100 < 2 ^ 32)) ∧
    ∃ k s1, 1 ≤ k ∧
      (∀ fuel, k ≤ fuel →
        waitForReady (w25q80 busyChip id) 100 fuel (initSt 1048576) = some (false, s1)) ∧
      (∀ fuel b s2, waitForReady (w25q80 busyChip id) 100 fuel (initSt 1048576) = some (b, s2) →
        b = false ∧ s2 = s1) ∧
      s1 = { initSt 1048576 with
             cs := false, trace := (initSt 1048576).trace ++ polls k,
             ticks := (initSt 1048576).ticks + 1 + k } ∧
      100 < (w25q80 busyChip id).clock ((initSt 1048576).ticks + k) -
        (w25q80 busyChip id).clock (initSt 1048576).ticks :=
  ⟨⟨fun _ => rfl, monotone_id, fun B => ⟨B + 1, Nat.lt_succ_self B⟩,
     fun i => by simp [w25q80]⟩,
   waitForReady_busy_times_out (w25q80 busyChip id) 100 (initSt 1048576) (fun _ => rfl)
     monotone_id (fun B => ⟨B + 1, Nat.lt_succ_self B⟩) (fun i => by simp [w25q80])⟩

/-- C8 as stated fails in two ways, both against an always-busy chip and a
non-decreasing, unbounded clock.  With the timeout `0xFFFFFFFF` no 32-bit
elapsed time can exceed the timeout, and with a clock that advances `2^32` ms
between readings the 32-bit counter never moves: in both cases `waitForReady`
returns for no amount of fuel. -/
theorem waitForReady_busy_blocks :
    (AlwaysBusy (w25q80 busyChip id) ∧ Monotone (w25q80 busyChip id).clock ∧
      (∀ B, ∃ i, B < (w25q80 busyChip id).clock i) ∧
      ∀ fuel, waitForReady (w25q80 busyChip id) 0xFFFFFFFF fuel (initSt 1048576) = none) ∧
    (AlwaysBusy (w25q80 busyChip wrapClock) ∧ Monotone (w25q80 busyChip wrapClock).clock ∧
      (∀ B, ∃ i, B < (w25q80 busyChip wrapClock).clock i) ∧
      ∀ fuel, waitForReady (w25q80 busyChip wrapClock) 100 fuel (initSt 1048576) = none) := by
  refine ⟨⟨fun _ => rfl, monotone_id, fun B => ⟨B + 1, Nat.lt_succ_self B⟩, ?_⟩,
    ⟨fun _ => rfl, fun i j h => Nat.mul_le_mul_left _ h, fun B => ⟨B + 1, ?_⟩, ?_⟩⟩
  · intro fuel
    exact waitLoop_never (w25q80 busyChip id) _ _ (fun _ => rfl)
      (fun i => Nat.le_of_lt_succ (sub32_lt _ _)) fuel _
  · simp only [w25q80, wrapClock]
    omega
  · intro fuel
    refine waitLoop_never (w25q80 busyChip wrapClock) _ _ (fun _ => rfl) (fun i => ?_) fuel _
    have h0 : (w25q80 busyChip wrapClock).clock i % 2 ^ 32 = 0 := Nat.mul_mod_right _ _
    rw [h0]
    decide

/-! ## A ready chip and a late clock -/

/-- C9: the timeout test of `waitForReady` comes before the BUSY test.  With a
timeout of 100 ms, a chip whose status reads `0x00` (BUSY clear) at the first
poll and a millisecond counter that reads 0 at the start and 101 at the first
timeout check, `waitForReady` returns `false` after that one poll, for every
fuel that lets it return; so does `waitForReady(0)` when the counter moves from
0 to 1 during the poll.  With a timeout of 100 ms and a clock that advances
1 ms per reading the same poll returns `true`. -/
theorem waitForReady_ready_but_late :
    idleChip [Ev.select, Ev.xfer CMD_READSTAT1] 0 &&& STAT_BUSY = 0 ∧
    waitForReady (w25q80 idleChip slowClock) 100 1 (initSt 1048576) =
      some (false, afterOnePoll) ∧
    waitForReady (w25q80 idleChip slowClock) 100 9 (initSt 1048576) =
      some (false, afterOnePoll) ∧
    waitForReady (w25q80 idleChip id) 0 1 (initSt 1048576) = some (false, afterOnePoll) ∧
    waitForReady (w25q80 idleChip id) 100 1 (initSt 1048576) = some (true, afterOnePoll) := by
  refine ⟨by decide, by decide, by decide, by decide, by decide⟩

/-! ## The two outcomes of `beginRead` -/

/-- C10: starting with the chip deselected, for every address `a`:
`beginRead(a)` returns exactly when the address is out of range or the
ready-wait returns.  If it returns `true` then `a < capacity`, the ready-wait
succeeded, the trace ends with `select, 0x03, (a >> 16) mod 256,
(a >> 8) mod 256, a mod 256` (nothing after them, so no deselect) and the chip
is selected.  If it returns `false` then `a ≥ capacity` or the ready-wait
failed, the read opcode `0x03` is not among the bytes sent, and the chip is
deselected. -/
theorem beginRead_outcome (P : Platform) (fuel a : Nat) (s : St) (hcs : s.cs = false) :
    ((beginRead P fuel a s).isSome = true ↔
      (s.capacity ≤ a ∨ (waitForReady P P.defaultTimeout fuel s).isSome = true)) ∧
    ∀ b s1, beginRead P fuel a s = some (b, s1) →
      (b = true →
        a < s.capacity ∧
        (∃ sw, waitForReady P P.defaultTimeout fuel s = some (true, sw) ∧
          s1.trace = sw.trace ++
            [Ev.select, Ev.xfer 0x03, Ev.xfer ((a >>> 16) % 256), Ev.xfer ((a >>> 8) % 256),
             Ev.xfer (a % 256)]) ∧
        s1.cs = true) ∧
      (b = false →
        (s.capacity ≤ a ∨ waitForReady P P.defaultTimeout fuel s = some (false, s1)) ∧
        (∃ t, s1.trace = s.trace ++ t ∧ 0x03 ∉ sentBytes t) ∧
        s1.cs = false) := by
  by_cases ha : s.capacity ≤ a
  · have hret : beginRead P fuel a s = some (false, s) := by simp [beginRead, ha]
    refine ⟨by simp [hret, ha], ?_⟩
    intro b s1 h
    rw [hret] at h
    simp only [Option.some.injEq, Prod.mk.injEq] at h
    obtain ⟨hb, hs⟩ := h
    subst hb hs
    exact ⟨fun h => Bool.noConfusion h, fun _ => ⟨Or.inl ha, ⟨[], by simp, by simp [sentBytes]⟩, hcs⟩⟩
  · rcases hw : waitForReady P P.defaultTimeout fuel s with _ | ⟨ready, sw⟩
    · have hret : beginRead P fuel a s = none := by simp [beginRead, ha, hw]
      refine ⟨by simp [hret, ha], ?_⟩
      intro b s1 h
      rw [hret] at h
      cases h
    · obtain ⟨k, _, _, hsw⟩ := waitForReady_state P _ _ _ _ _ hw
      cases ready with
      | false =>
        have hret : beginRead P fuel a s = some (false, sw) := by simp [beginRead, ha, hw]
        refine ⟨by simp [hret], ?_⟩
        intro b s1 h
        rw [hret] at h
        simp only [Option.some.injEq, Prod.mk.injEq] at h
        obtain ⟨hb, hs⟩ := h
        subst hb hs
        refine ⟨fun h => Bool.noConfusion h, fun _ => ⟨Or.inr rfl, ⟨polls k, by rw [hsw], ?_⟩, by rw [hsw]⟩⟩
        intro hmem
        rcases sentBytes_polls k _ hmem with h | h <;> cases h
      | true =>
        have hret : beginRead P fuel a s =
            some (true, { sw with
              cs := true
              trace := sw.trace ++
                [Ev.select, Ev.xfer 0x03, Ev.xfer ((a >>> 16) % 256),
                 Ev.xfer ((a >>> 8) % 256), Ev.xfer (a % 256)] }) := by
          simp [beginRead, ha, hw, cmd, spi_xfer, chipSelect, CMD_READDATA]
        refine ⟨by simp [hret], ?_⟩
        intro b s1 h
        rw [hret] at h
        simp only [Option.some.injEq, Prod.mk.injEq] at h
        obtain ⟨hb, hs⟩ := h
        subst hb hs
        exact ⟨fun _ => ⟨Nat.lt_of_not_le ha, ⟨sw, rfl, rfl⟩, rfl⟩, fun h => Bool.noConfusion h⟩

/-- C10, exercised on a 1 MiB device with an idle chip: `beginRead(0x012345)`
from the deselected initial state. -/
theorem beginRead_outcome_witness :
    (initSt 1048576).cs = false ∧
    ((beginRead (w25q80 idleChip id) 1 0x012345 (initSt 1048576)).isSome = true ↔
      ((initSt 1048576).capacity ≤ 0x012345 ∨
        (waitForReady (w25q80 idleChip id) (w25q80 idleChip id).defaultTimeout 1
          (initSt 1048576)).isSome = true)) ∧
    ∀ b s1, beginRead (w25q80 idleChip id) 1 0x012345 (initSt 1048576) = some (b, s1) →
      (b = true →
        0x012345 < (initSt 1048576).capacity ∧
        (∃ sw, waitForReady (w25q80 idleChip id) (w25q80 idleChip id).defaultTimeout 1
            (initSt 1048576) = some (true, sw) ∧
          s1.trace = sw.trace ++
            [Ev.select, Ev.xfer 0x03, Ev.xfer ((0x012345 >>> 16) % 256),
             Ev.xfer ((0x012345 >>> 8) % 256), Ev.xfer (0x012345 % 256)]) ∧
        s1.cs = true) ∧
      (b = false →
        ((initSt 1048576).capacity ≤ 0x012345 ∨
          waitForReady (w25q80 idleChip id) (w25q80 idleChip id).defaultTimeout 1
            (initSt 1048576) = some (false, s1)) ∧
        (∃ t, s1.trace = (initSt 1048576).trace ++ t ∧ 0x03 ∉ sentBytes t) ∧
        s1.cs = false) :=
  ⟨rfl, beginRead_outcome (w25q80 idleChip id) 1 0x012345 (initSt 1048576) rfl⟩

/-! ## The erase and program routines, step by step -/

theorem busOf_append (x y : List (List Nat)) : busOf (x ++ y) = busOf x ++ busOf y := by
  induction x with
  | nil => rfl
  | cons b r ih => simp [busOf, ih]

theorem polls_eq_busOf (k : Nat) : polls k = busOf (List.replicate k [5, 0]) := by
  induction k with
  | zero => rfl
  | succ n ih => simp [polls, List.replicate_succ, busOf, ih, pollTxn, txnEvents, CMD_READSTAT1]

/-- The state after `writeEnable`, as two transactions. -/
theorem writeEnable_afterTxn (P : Platform) (s : St) :
    (writeEnable P s).2 = afterTxn (afterTxn s [6]) [5, 0] := by
  rw [writeEnable_state]
  simp [afterTxn, txnEvents]

/-- The state after `writeDisable`, as one transaction. -/
theorem writeDisable_afterTxn (P : Platform) (s : St) :
    writeDisable P s = afterTxn s [4] := by
  rw [writeDisable_state]
  simp [afterTxn, txnEvents]

/-- The routine `eraseChip` as its sequence of steps. -/
theorem eraseChip_eq (P : Platform) (fuel : Nat) (s : St) :
    eraseChip P fuel s =
      match waitForReady P P.defaultTimeout fuel s with
      | none => none
      | some (ready, s1) =>
        if ready then
          if (writeEnable P s1).1 then
            disableIfReady P (waitForReady P 10000 fuel (afterTxn (writeEnable P s1).2 [0x60]))
          else some (false, (writeEnable P s1).2)
        else some (false, s1) := by
  have hcmd : ∀ w : St, chipDeselect (cmd P CMD_CHIPERASE w) = afterTxn w [0x60] := by
    intro w
    simp [chipDeselect, cmd, spi_xfer, chipSelect, CMD_CHIPERASE, afterTxn, txnEvents]
  simp only [eraseChip, hcmd, disableIfReady]
  rcases waitForReady P P.defaultTimeout fuel s with _ | ⟨ready, s1⟩
  · rfl
  · cases ready
    · rfl
    · cases hen : (writeEnable P s1).1 <;> simp [hen]

/-- The routine `eraseSector` as its sequence of steps. -/
theorem eraseSector_eq (P : Platform) (fuel a : Nat) (s : St) :
    eraseSector P fuel a s =
      match waitForReady P P.defaultTimeout fuel s with
      | none => none
      | some (ready, s1) =>
        if ready then
          if (writeEnable P s1).1 then
            disableIfReady P (waitForReady P 1000 fuel
              (afterTxn (writeEnable P s1).2 [0x20, (a >>> 16) % 256, (a >>> 8) % 256, 0]))
          else some (false, (writeEnable P s1).2)
        else some (false, s1) := by
  have hcmd : ∀ w : St,
      chipDeselect (spi_xfer P 0 (spi_xfer P (a >>> 8) (spi_xfer P (a >>> 16)
        (cmd P CMD_SECTORERASE w)).2).2).2 =
      afterTxn w [0x20, (a >>> 16) % 256, (a >>> 8) % 256, 0] := by
    intro w
    simp [chipDeselect, cmd, spi_xfer, chipSelect, CMD_SECTORERASE, afterTxn, txnEvents]
  simp only [eraseSector, hcmd, disableIfReady]
  rcases waitForReady P P.defaultTimeout fuel s with _ | ⟨ready, s1⟩
  · rfl
  · cases ready
    · rfl
    · cases hen : (writeEnable P s1).1 <;> simp [hen]

/-- The routine `writePage` as its sequence of steps. -/
theorem writePage_eq (P : Platform) (fuel a : Nat) (data : Nat → Nat) (s : St) :
    writePage P fuel a data s =
      if s.capacity ≤ a then some (false, s)
      else
        match waitForReady P P.defaultTimeout fuel s with
        | none => none
        | some (ready, s1) =>
          if ready then
            if (writeEnable P s1).1 then
              disableIfReady P (waitForReady P P.defaultTimeout fuel
                (delay 3 (afterTxn (writeEnable P s1).2
                  (0x02 :: (a >>> 16) % 256 :: (a >>> 8) % 256 :: 0 ::
                    (List.range 256).map (fun i => data i % 256)))))
            else some (false, (writeEnable P s1).2)
          else some (false, s1) := by
  have hcmd : ∀ w : St,
      chipDeselect (sendData P data 256 (spi_xfer P 0 (spi_xfer P (a >>> 8)
        (spi_xfer P (a >>> 16) (cmd P CMD_PAGEPROG w)).2).2).2) =
      afterTxn w (0x02 :: (a >>> 16) % 256 :: (a >>> 8) % 256 :: 0 ::
        (List.range 256).map (fun i => data i % 256)) := by
    intro w
    simp only [sendData_state, chipDeselect, cmd, spi_xfer, chipSelect, CMD_PAGEPROG, afterTxn,
      txnEvents, List.append_assoc, List.cons_append, List.nil_append, Nat.zero_mod,
      Nat.reduceMod, List.map_cons, List.map_map, Function.comp_def]
  simp only [writePage, ge_iff_le, hcmd, disableIfReady]
  by_cases ha : s.capacity ≤ a
  · simp only [ha, if_true]
  · simp only [ha, if_false]
    rcases waitForReady P P.defaultTimeout fuel s with _ | ⟨ready, s1⟩
    · rfl
    · cases ready
      · rfl
      · cases hen : (writeEnable P s1).1 <;> simp [hen]

/-! ## Sector erase: the bytes of the command -/

/-- C11 (amended): for every address `a`, when the initial ready-wait and the
write-enable succeed, `eraseSector(a)` performs, right after the write-enable,
the one erase transaction `select, 0x20, (a >> 16) mod 256, (a >> 8) mod 256,
0x00, deselect`: the low address byte sent is 0, whatever the low 8 bits of
`a` are.  It then starts the 1000 ms ready-wait; whenever it returns, the
trace it leaves is that of the write-enable, this one transaction, `k` status
polls and, on success, the write-disable transaction.  The call with the low
8 bits of `a` cleared behaves identically. -/
theorem eraseSector_command (P : Platform) (fuel a : Nat) (s s1 : St)
    (hw : waitForReady P P.defaultTimeout fuel s = some (true, s1))
    (hen : (writeEnable P s1).1 = true) :
    ∃ txn s6,
      txn = [Ev.select, Ev.xfer 0x20, Ev.xfer ((a >>> 16) % 256), Ev.xfer ((a >>> 8) % 256),
             Ev.xfer 0x00, Ev.deselect] ∧
      s6 = { (writeEnable P s1).2 with
             cs := false
             trace := (writeEnable P s1).2.trace ++ txn } ∧
      eraseSector P fuel a s = disableIfReady P (waitForReady P 1000 fuel s6) ∧
      (∀ b s7, eraseSector P fuel a s = some (b, s7) →
        ∃ k, s7.trace = (writeEnable P s1).2.trace ++ txn ++ polls k ++
          (if b then [Ev.select, Ev.xfer 0x04, Ev.deselect] else [])) ∧
      eraseSector P fuel (a - a % 256) s = eraseSector P fuel a s := by
  have h16 : ((a - a % 256) >>> 16) % 256 = (a >>> 16) % 256 := by
    simp only [Nat.shiftRight_eq_div_pow]; norm_num; omega
  have h8 : ((a - a % 256) >>> 8) % 256 = (a >>> 8) % 256 := by
    simp only [Nat.shiftRight_eq_div_pow]; norm_num; omega
  have hrun : eraseSector P fuel a s =
      disableIfReady P (waitForReady P 1000 fuel
        (afterTxn (writeEnable P s1).2 [0x20, (a >>> 16) % 256, (a >>> 8) % 256, 0])) := by
    rw [eraseSector_eq, hw]
    simp [hen]
  refine ⟨_, _, rfl, rfl, hrun, ?_, ?_⟩
  · intro b s7 hres
    rw [hrun] at hres
    rcases hfin : waitForReady P 1000 fuel
        (afterTxn (writeEnable P s1).2 [0x20, (a >>> 16) % 256, (a >>> 8) % 256, 0])
      with _ | ⟨done, s8⟩
    · rw [hfin] at hres
      simp [disableIfReady] at hres
    · rw [hfin] at hres
      obtain ⟨k, _, _, hs8⟩ := waitForReady_state P _ _ _ _ _ hfin
      refine ⟨k, ?_⟩
      cases done
      · simp only [disableIfReady, Bool.not_false, if_true, Option.some.injEq,
          Prod.mk.injEq] at hres
        rw [← hres.2, ← hres.1, hs8]
        simp [afterTxn, txnEvents]
      · simp only [disableIfReady, Bool.not_true, Bool.false_eq_true, if_false,
          Option.some.injEq, Prod.mk.injEq] at hres
        rw [← hres.2, ← hres.1, hs8, writeDisable_state]
        simp [afterTxn, txnEvents]
  · rw [eraseSector_eq, eraseSector_eq P fuel a, h16, h8]

/-- C11 (amended), exercised on a 1 MiB device whose chip is ready and latches
write-enable: `eraseSector(0x012345)`. -/
theorem eraseSector_command_witness :
    (waitForReady (w25q80 latchedChip id) (w25q80 latchedChip id).defaultTimeout 1
        (initSt 1048576) = some (true, afterOnePoll) ∧
      (writeEnable (w25q80 latchedChip id) afterOnePoll).1 = true) ∧
    ∃ txn s6,
      txn = [Ev.select, Ev.xfer 0x20, Ev.xfer ((0x012345 >>> 16) % 256),
             Ev.xfer ((0x012345 >>> 8) % 256), Ev.xfer 0x00, Ev.deselect] ∧
      s6 = { (writeEnable (w25q80 latchedChip id) afterOnePoll).2 with
             cs := false
             trace := (writeEnable (w25q80 latchedChip id) afterOnePoll).2.trace ++ txn } ∧
      eraseSector (w25q80 latchedChip id) 1 0x012345 (initSt 1048576) =
        disableIfReady (w25q80 latchedChip id)
          (waitForReady (w25q80 latchedChip id) 1000 1 s6) ∧
      (∀ b s7, eraseSector (w25q80 latchedChip id) 1 0x012345 (initSt 1048576) = some (b, s7) →
        ∃ k, s7.trace = (writeEnable (w25q80 latchedChip id) afterOnePoll).2.trace ++ txn ++
          polls k ++ (if b then [Ev.select, Ev.xfer 0x04, Ev.deselect] else [])) ∧
      eraseSector (w25q80 latchedChip id) 1 (0x012345 - 0x012345 % 256) (initSt 1048576) =
        eraseSector (w25q80 latchedChip id) 1 0x012345 (initSt 1048576) :=
  ⟨⟨by decide, by decide⟩,
   eraseSector_command (w25q80 latchedChip id) 1 0x012345 (initSt 1048576) afterOnePoll
     (by decide) (by decide)⟩

/-- C11 as stated fails for an address whose low byte is not 0: on a 1 MiB
device whose chip is ready and latches write-enable, `eraseSector(0x012345)`
succeeds, and its erase transaction is `select, 0x20, 0x01, 0x23, 0x00,
deselect`; the low address byte `0x45` is never sent. -/
theorem eraseSector_low_byte_not_sent :
    0x012345 % 256 = 0x45 ∧
    eraseSector (w25q80 latchedChip id) 1 0x012345 (initSt 1048576) =
      some (true,
        { capacity := 1048576, cs := false, ticks := 4, slept := 0,
          trace :=
            [Ev.select, Ev.xfer 0x05, Ev.xfer 0, Ev.deselect,
             Ev.select, Ev.xfer 0x06, Ev.deselect,
             Ev.select, Ev.xfer 0x05, Ev.xfer 0, Ev.deselect,
             Ev.select, Ev.xfer 0x20, Ev.xfer 0x01, Ev.xfer 0x23, Ev.xfer 0x00, Ev.deselect,
             Ev.select, Ev.xfer 0x05, Ev.xfer 0, Ev.deselect,
             Ev.select, Ev.xfer 0x04, Ev.deselect] }) ∧
    (eraseSector (w25q80 latchedChip id) 1 0x012345 (initSt 1048576)).map
        (fun r => decide (Ev.xfer 0x45 ∈ r.2.trace)) = some false := by
  refine ⟨by decide, by decide, by decide⟩

/-! ## The causes of failure of `writePage` -/

/-- The result of `writeEnable` is bit 1 of `wrenStatus`. -/
theorem writeEnable_bit (P : Platform) (s : St) :
    (writeEnable P s).1 = (wrenStatus P s).testBit 1 :=
  writeEnable_result P s

/-- C12: `writePage(a, data)` returns `false` exactly when (a) `a ≥ capacity`,
or (b) the initial `waitForReady` returns `false`, or (c) the status byte
re-read by `writeEnable` has bit 1 (WRITE-ENABLED) clear, or (b) the final
`waitForReady` after the program transaction returns `false`; it returns
`true` exactly when none of them holds and the final wait returns `true`.  The
preconditions are evaluated in the order address bound, ready-wait,
write-enable: with `a ≥ capacity` nothing at all is done (even the clock is not
read), a failed ready-wait leaves a trace of status polls only, and an
unconfirmed write-enable leaves the trace of the write-enable as the last
bus traffic. -/
theorem writePage_false_iff (P : Platform) (fuel a : Nat) (data : Nat → Nat) (s : St) :
    (∀ s9, writePage P fuel a data s = some (false, s9) ↔
      (s.capacity ≤ a ∧ s9 = s) ∨
      (a < s.capacity ∧ waitForReady P P.defaultTimeout fuel s = some (false, s9)) ∨
      (a < s.capacity ∧ ∃ s1, waitForReady P P.defaultTimeout fuel s = some (true, s1) ∧
        (wrenStatus P s1).testBit 1 = false ∧ s9 = (writeEnable P s1).2) ∨
      (a < s.capacity ∧ ∃ s1, waitForReady P P.defaultTimeout fuel s = some (true, s1) ∧
        (wrenStatus P s1).testBit 1 = true ∧
        waitForReady P P.defaultTimeout fuel
          (delay 3 (afterTxn (writeEnable P s1).2
            (0x02 :: (a >>> 16) % 256 :: (a >>> 8) % 256 :: 0 ::
              (List.range 256).map (fun i => data i % 256)))) = some (false, s9))) ∧
    (∀ s9, writePage P fuel a data s = some (true, s9) ↔
      (a < s.capacity ∧ ∃ s1 s8, waitForReady P P.defaultTimeout fuel s = some (true, s1) ∧
        (wrenStatus P s1).testBit 1 = true ∧
        waitForReady P P.defaultTimeout fuel
          (delay 3 (afterTxn (writeEnable P s1).2
            (0x02 :: (a >>> 16) % 256 :: (a >>> 8) % 256 :: 0 ::
              (List.range 256).map (fun i => data i % 256)))) = some (true, s8) ∧
        s9 = writeDisable P s8)) ∧
    (s.capacity ≤ a → writePage P fuel a data s = some (false, s)) ∧
    (∀ s1, a < s.capacity → waitForReady P P.defaultTimeout fuel s = some (false, s1) →
      writePage P fuel a data s = some (false, s1) ∧ ∃ k, s1.trace = s.trace ++ polls k) ∧
    (∀ s1, a < s.capacity → waitForReady P P.defaultTimeout fuel s = some (true, s1) →
      (wrenStatus P s1).testBit 1 = false →
      writePage P fuel a data s = some (false, (writeEnable P s1).2) ∧
      (writeEnable P s1).2.trace = s1.trace ++
        [Ev.select, Ev.xfer 0x06, Ev.deselect, Ev.select, Ev.xfer 0x05, Ev.xfer 0x00,
         Ev.deselect]) := by
  refine ⟨?_, ?_, ?_, ?_, ?_⟩
  · intro s9
    rw [writePage_eq]
    generalize (List.range 256).map (fun i => data i % 256) = bytes
    by_cases ha : s.capacity ≤ a
    · have hna : ¬ a < s.capacity := Nat.not_lt.mpr ha
      simp only [ha, if_true, Option.some.injEq, Prod.mk.injEq, true_and, hna, false_and,
        or_false]
      exact eq_comm
    · have hlt : a < s.capacity := Nat.lt_of_not_le ha
      simp only [ha, if_false, false_and, false_or, hlt, true_and]
      rcases hw : waitForReady P P.defaultTimeout fuel s with _ | ⟨ready, s1⟩
      · simp
      · cases ready
        · simp
        · cases hen : (wrenStatus P s1).testBit 1
          · simp [writeEnable_bit, hen]
            exact eq_comm
          · simp only [writeEnable_bit, hen, if_true, Option.some.injEq, Prod.mk.injEq,
              Bool.true_eq_false, false_and, exists_eq_left', true_and, false_or]
            rcases waitForReady P P.defaultTimeout fuel _ with _ | ⟨done, s8⟩
            · simp [disableIfReady]
            · cases done <;> simp [disableIfReady]
  · intro s9
    rw [writePage_eq]
    generalize (List.range 256).map (fun i => data i % 256) = bytes
    by_cases ha : s.capacity ≤ a
    · have hna : ¬ a < s.capacity := Nat.not_lt.mpr ha
      simp [ha, hna]
    · have hlt : a < s.capacity := Nat.lt_of_not_le ha
      simp only [ha, if_false, hlt, true_and]
      rcases hw : waitForReady P P.defaultTimeout fuel s with _ | ⟨ready, s1⟩
      · simp
      · cases ready
        · simp
        · cases hen : (wrenStatus P s1).testBit 1
          · simp [writeEnable_bit, hen]
          · simp only [writeEnable_bit, hen, if_true, Option.some.injEq, Prod.mk.injEq,
              true_and, exists_and_left, exists_eq_left']
            rcases waitForReady P P.defaultTimeout fuel _ with _ | ⟨done, s8⟩
            · simp [disableIfReady]
            · cases done <;> simp [disableIfReady, eq_comm]
  · intro ha
    simp [writePage, ha]
  · intro s1 ha hw
    obtain ⟨k, _, _, hs1⟩ := waitForReady_state P _ _ _ _ _ hw
    refine ⟨by rw [writePage_eq, hw]; simp [Nat.not_le.mpr ha], k, by rw [hs1]⟩
  · intro s1 ha hw hbit
    refine ⟨by rw [writePage_eq, hw]; simp [Nat.not_le.mpr ha, writeEnable_bit, hbit], ?_⟩
    rw [writeEnable_state]

/-- C12, exercised on a 1 MiB device with an idle chip (status `0x00`): the
ready-wait succeeds, write-enable is not confirmed and `writePage` returns
`false`; on an unidentified device address 0 is refused untouched. -/
theorem writePage_false_iff_witness :
    writePage (w25q80 idleChip id) 1 0x012345 rampMem (initSt 1048576) =
      some (false, (writeEnable (w25q80 idleChip id) afterOnePoll).2) ∧
    writePage (w25q80 idleChip id) 1 0 rampMem (initSt 0) = some (false, initSt 0) :=
  ⟨((writePage_false_iff (w25q80 idleChip id) 1 0x012345 rampMem (initSt 1048576)).1 _).mpr
      (Or.inr (Or.inr (Or.inl ⟨by decide, afterOnePoll, by decide, by decide, rfl⟩))),
   (writePage_false_iff (w25q80 idleChip id) 1 0 rampMem (initSt 0)).2.2.1 (Nat.le_refl _)⟩

/-! ## Traces as sequences of transactions -/

theorem busOf_cons (t : List Nat) (ts : List (List Nat)) :
    busOf (t :: ts) = Ev.select :: (t.map Ev.xfer ++ Ev.deselect :: busOf ts) := by
  simp [busOf, txnEvents]

/-- A transaction that occurs in a bus trace built from transactions is one of
them: the parse of such a trace is unique. -/
theorem mem_of_txnEvents_infix (c : List Nat) :
    ∀ txs : List (List Nat), txnEvents c <:+: busOf txs → c ∈ txs := by
  have hA : ∀ (c t : List Nat) (rest : List Ev),
      c.map Ev.xfer ++ [Ev.deselect] <+: t.map Ev.xfer ++ Ev.deselect :: rest → c = t := by
    intro c
    induction c with
    | nil =>
      intro t rest h
      cases t with
      | nil => rfl
      | cons x t => simp at h
    | cons y c ih =>
      intro t rest h
      cases t with
      | nil => simp at h
      | cons x t =>
        simp only [List.map_cons, List.cons_append, List.cons_prefix_cons, Ev.xfer.injEq] at h
        rw [h.1, ih t rest h.2]
  have hB : ∀ (t : List Nat) (rest : List Ev),
      txnEvents c <:+: t.map Ev.xfer ++ Ev.deselect :: rest → txnEvents c <:+: rest := by
    intro t
    induction t with
    | nil =>
      intro rest h
      rcases List.infix_cons_iff.mp h with h | h
      · simp [txnEvents] at h
      · exact h
    | cons x t ih =>
      intro rest h
      rcases List.infix_cons_iff.mp h with h | h
      · simp [txnEvents] at h
      · exact ih rest h
  intro txs
  induction txs with
  | nil =>
    intro h
    simp [busOf, txnEvents] at h
  | cons t ts ih =>
    intro h
    rw [busOf_cons] at h
    rcases List.infix_cons_iff.mp h with h | h
    · have := hA c t (busOf ts) (by simpa [txnEvents] using h)
      simp [this]
    · exact List.mem_cons_of_mem _ (ih (hB t _ h))

theorem txnEvents_infix_iff (c : List Nat) (txs : List (List Nat)) :
    txnEvents c <:+: busOf txs ↔ c ∈ txs := by
  constructor
  · exact mem_of_txnEvents_infix c txs
  · intro h
    obtain ⟨p, q, rfl⟩ := List.append_of_mem h
    exact ⟨busOf p, busOf q, by simp [busOf_append, busOf]⟩

/-- A sequence of non-empty transactions run from the deselected level keeps
the chip-select discipline and ends deselected. -/
theorem csCheck_busOf (txs : List (List Nat)) : csCheck false (busOf txs) = some false := by
  have hx : ∀ (b : List Nat) (rest : List Ev),
      csCheck true (b.map Ev.xfer ++ Ev.deselect :: rest) = csCheck false rest := by
    intro b
    induction b with
    | nil => intro rest; simp [csCheck]
    | cons x b ih => intro rest; simp [csCheck, ih]
  induction txs with
  | nil => rfl
  | cons b r ih =>
    rw [busOf_cons, csCheck, hx, ih]

/-- Whenever `waitForReady` returns, what it added to the trace is `k ≥ 1`
status-poll transactions, and the chip is deselected. -/
theorem waitForReady_txns (P : Platform) (T fuel : Nat) (s : St) (b : Bool) (s1 : St)
    (h : waitForReady P T fuel s = some (b, s1)) :
    ∃ k, 1 ≤ k ∧ s1.trace = s.trace ++ busOf (List.replicate k [5, 0]) ∧ s1.cs = false ∧
      s1.capacity = s.capacity := by
  obtain ⟨k, hk, _, hs1⟩ := waitForReady_state P T fuel s b s1 h
  exact ⟨k, hk, by rw [hs1, polls_eq_busOf], by rw [hs1], by rw [hs1]⟩

/-- The common shape of `eraseChip`, `eraseSector` and `writePage` past the
address check: ready-wait, write-enable, one command transaction sending the
bytes `c`, ready-wait, write-disable.  Whenever it returns, the trace it added
is a sequence of non-empty transactions; the write-disable transaction is among
them exactly when the result is `true`, and then it is the last one. -/
theorem guarded_txns (P : Platform) (fuel T : Nat) (s : St) (c : List Nat) (g : St → St)
    (hc : c ≠ []) (hc4 : c ≠ [4])
    (hg : ∀ x, (g x).trace = x.trace)
    (b : Bool) (s9 : St)
    (h : (match waitForReady P P.defaultTimeout fuel s with
          | none => none
          | some (ready, s1) =>
            if ready then
              if (writeEnable P s1).1 then
                disableIfReady P (waitForReady P T fuel (g (afterTxn (writeEnable P s1).2 c)))
              else some (false, (writeEnable P s1).2)
            else some (false, s1)) = some (b, s9)) :
    ∃ txs, s9.trace = s.trace ++ busOf txs ∧ s9.cs = false ∧ txs ≠ [] ∧
      (∀ tx ∈ txs, tx ≠ []) ∧ ([4] ∈ txs ↔ b = true) ∧ (b = true → ∃ pre, txs = pre ++ [[4]]) := by
  rcases hw : waitForReady P P.defaultTimeout fuel s with _ | ⟨ready, s1⟩
  · rw [hw] at h
    cases h
  · rw [hw] at h
    obtain ⟨k1, hk1, ht1, hcs1, _⟩ := waitForReady_txns P _ _ _ _ _ hw
    have hne1 : List.replicate k1 [5, 0] ≠ ([] : List (List Nat)) := by
      intro h0
      have := congrArg List.length h0
      simp at this
      omega
    cases ready with
    | false =>
      simp only [Bool.false_eq_true, if_false, Option.some.injEq, Prod.mk.injEq] at h
      obtain ⟨hb, hs⟩ := h
      subst hb hs
      refine ⟨List.replicate k1 [5, 0], ht1, hcs1, hne1, ?_, ?_, fun h => Bool.noConfusion h⟩
      · intro tx htx
        rw [(List.mem_replicate.mp htx).2]
        simp
      · simp [List.mem_replicate]
    | true =>
      simp only [if_true] at h
      cases hen : (writeEnable P s1).1 with
      | false =>
        rw [hen] at h
        simp only [Bool.false_eq_true, if_false, Option.some.injEq, Prod.mk.injEq] at h
        obtain ⟨hb, hs⟩ := h
        subst hb hs
        refine ⟨List.replicate k1 [5, 0] ++ [[6], [5, 0]], ?_, ?_, by simp, ?_, ?_,
          fun h => Bool.noConfusion h⟩
        · rw [writeEnable_afterTxn]
          simp [afterTxn, ht1, busOf_append, busOf]
        · rw [writeEnable_afterTxn]
          rfl
        · intro tx htx
          rcases List.mem_append.mp htx with h1 | h1
          · rw [(List.mem_replicate.mp h1).2]
            simp
          · simp at h1
            rcases h1 with h1 | h1 <;> simp [h1]
        · simp [List.mem_replicate]
      | true =>
        rw [hen] at h
        simp only [if_true] at h
        rcases hfin : waitForReady P T fuel (g (afterTxn (writeEnable P s1).2 c))
          with _ | ⟨done, s3⟩
        · rw [hfin] at h
          simp [disableIfReady] at h
        · rw [hfin] at h
          obtain ⟨k2, hk2, ht2, hcs2, _⟩ := waitForReady_txns P _ _ _ _ _ hfin
          have ht3 : s3.trace =
              s.trace ++ busOf (List.replicate k1 [5, 0] ++ [[6], [5, 0]] ++ [c] ++
                List.replicate k2 [5, 0]) := by
            rw [ht2, hg, writeEnable_afterTxn]
            simp [afterTxn, ht1, busOf_append, busOf]
          have hmem : ∀ tx, tx ∈ List.replicate k1 [5, 0] ++ [[6], [5, 0]] ++ [c] ++
              List.replicate k2 [5, 0] → tx ≠ [] ∧ tx ≠ [4] := by
            intro tx htx
            simp only [List.mem_append, List.mem_replicate, List.mem_cons, List.mem_singleton,
              List.mem_nil_iff, or_false] at htx
            rcases htx with ((h1 | h1 | h1) | h1) | h1
            · rw [h1.2]; simp
            · rw [h1]; simp
            · rw [h1]; simp
            · rw [h1]; exact ⟨hc, hc4⟩
            · rw [h1.2]; simp
          cases done with
          | false =>
            simp only [disableIfReady, Bool.not_false, if_true, Option.some.injEq,
              Prod.mk.injEq] at h
            obtain ⟨hb, hs⟩ := h
            subst hb hs
            refine ⟨_, ht3, hcs2, by simp, fun tx htx => (hmem tx htx).1, ?_,
              fun h => Bool.noConfusion h⟩
            constructor
            · intro h4
              exact absurd rfl (hmem _ h4).2
            · intro h4
              cases h4
          | true =>
            simp only [disableIfReady, Bool.not_true, Bool.false_eq_true, if_false,
              Option.some.injEq, Prod.mk.injEq] at h
            obtain ⟨hb, hs⟩ := h
            subst hb hs
            refine ⟨List.replicate k1 [5, 0] ++ [[6], [5, 0]] ++ [c] ++
                List.replicate k2 [5, 0] ++ [[4]], ?_, ?_, by simp, ?_, by simp,
              fun _ => ⟨_, rfl⟩⟩
            · rw [writeDisable_afterTxn]
              simp only [afterTxn, ht3]
              rw [busOf_append _ [[4]]]
              simp [busOf]
            · rw [writeDisable_afterTxn]
              rfl
            · intro tx htx
              rcases List.mem_append.mp htx with h1 | h1
              · exact (hmem tx h1).1
              · simp at h1
                simp [h1]

/-- The event-level reading of `guarded_txns`: the write-disable transaction
`select, 0x04, deselect` occurs in the added trace exactly when the result is
`true`, and then the trace ends with it. -/
theorem disable_iff_of_txns (t : List Ev) (b : Bool)
    (h : ∃ txs, t = busOf txs ∧ ([4] ∈ txs ↔ b = true) ∧ (b = true → ∃ pre, txs = pre ++ [[4]])) :
    ([Ev.select, Ev.xfer 0x04, Ev.deselect] <:+: t ↔ b = true) ∧
    (b = true → [Ev.select, Ev.xfer 0x04, Ev.deselect] <:+ t) := by
  obtain ⟨txs, rfl, hmem, hlast⟩ := h
  have h4 : [Ev.select, Ev.xfer 0x04, Ev.deselect] = txnEvents [4] := rfl
  refine ⟨by rw [h4, txnEvents_infix_iff]; exact hmem, ?_⟩
  intro hb
  obtain ⟨pre, rfl⟩ := hlast hb
  exact ⟨busOf pre, by rw [busOf_append]; simp [busOf, txnEvents]⟩

/-! ## Success of the erase routines and the write-disable transaction -/

/-- C13: `eraseChip()` returns `true` exactly when the initial ready-wait
succeeds, the status re-read by `writeEnable` has WRITE-ENABLED set, and the
ready-wait that follows the erase command `select, 0x60, deselect` succeeds
with its timeout of 10000 ms; likewise `eraseSector(a)` with its command
transaction and a timeout of 1000 ms; the state returned is then that of the
write-disable.  Whenever either routine returns, the write-disable transaction
`select, 0x04, deselect` occurs in the trace it added exactly when the result
is `true`, and then that trace ends with it.  When the post-erase wait returns
`false`, the routine returns `false` in the state that wait left. -/
theorem erase_true_iff (P : Platform) (fuel a : Nat) (s : St) :
    (∀ s9, eraseChip P fuel s = some (true, s9) ↔
      ∃ s1 s3, waitForReady P P.defaultTimeout fuel s = some (true, s1) ∧
        (wrenStatus P s1).testBit 1 = true ∧
        waitForReady P 10000 fuel (afterTxn (writeEnable P s1).2 [0x60]) = some (true, s3) ∧
        s9 = writeDisable P s3) ∧
    (∀ s9, eraseSector P fuel a s = some (true, s9) ↔
      ∃ s1 s3, waitForReady P P.defaultTimeout fuel s = some (true, s1) ∧
        (wrenStatus P s1).testBit 1 = true ∧
        waitForReady P 1000 fuel
          (afterTxn (writeEnable P s1).2 [0x20, (a >>> 16) % 256, (a >>> 8) % 256, 0]) =
          some (true, s3) ∧
        s9 = writeDisable P s3) ∧
    (∀ b s9, (eraseChip P fuel s = some (b, s9) ∨ eraseSector P fuel a s = some (b, s9)) →
      ∃ t, s9.trace = s.trace ++ t ∧
        ([Ev.select, Ev.xfer 0x04, Ev.deselect] <:+: t ↔ b = true) ∧
        (b = true → [Ev.select, Ev.xfer 0x04, Ev.deselect] <:+ t)) ∧
    (∀ s1 s3, waitForReady P P.defaultTimeout fuel s = some (true, s1) →
      (wrenStatus P s1).testBit 1 = true →
      waitForReady P 10000 fuel (afterTxn (writeEnable P s1).2 [0x60]) = some (false, s3) →
      eraseChip P fuel s = some (false, s3)) ∧
    (∀ s1 s3, waitForReady P P.defaultTimeout fuel s = some (true, s1) →
      (wrenStatus P s1).testBit 1 = true →
      waitForReady P 1000 fuel
        (afterTxn (writeEnable P s1).2 [0x20, (a >>> 16) % 256, (a >>> 8) % 256, 0]) =
        some (false, s3) →
      eraseSector P fuel a s = some (false, s3)) := by
  have htrue : ∀ (T : Nat) (c : List Nat) (s9 : St),
      (match waitForReady P P.defaultTimeout fuel s with
        | none => none
        | some (ready, s1) =>
          if ready then
            if (writeEnable P s1).1 then
              disableIfReady P (waitForReady P T fuel (afterTxn (writeEnable P s1).2 c))
            else some (false, (writeEnable P s1).2)
          else some (false, s1)) = some (true, s9) ↔
      ∃ s1 s3, waitForReady P P.defaultTimeout fuel s = some (true, s1) ∧
        (wrenStatus P s1).testBit 1 = true ∧
        waitForReady P T fuel (afterTxn (writeEnable P s1).2 c) = some (true, s3) ∧
        s9 = writeDisable P s3 := by
    intro T c s9
    rcases hw : waitForReady P P.defaultTimeout fuel s with _ | ⟨ready, s1⟩
    · simp
    · cases ready
      · simp
      · cases hen : (wrenStatus P s1).testBit 1
        · simp [writeEnable_bit, hen]
        · simp only [writeEnable_bit, hen, if_true, Option.some.injEq, Prod.mk.injEq,
            true_and, exists_and_left, exists_eq_left']
          rcases waitForReady P T fuel _ with _ | ⟨done, s8⟩
          · simp [disableIfReady]
          · cases done <;> simp [disableIfReady, eq_comm]
  have hfalse : ∀ (T : Nat) (c : List Nat) (s1 s3 : St),
      waitForReady P P.defaultTimeout fuel s = some (true, s1) →
      (wrenStatus P s1).testBit 1 = true →
      waitForReady P T fuel (afterTxn (writeEnable P s1).2 c) = some (false, s3) →
      (match waitForReady P P.defaultTimeout fuel s with
        | none => none
        | some (ready, s1) =>
          if ready then
            if (writeEnable P s1).1 then
              disableIfReady P (waitForReady P T fuel (afterTxn (writeEnable P s1).2 c))
            else some (false, (writeEnable P s1).2)
          else some (false, s1)) = some (false, s3) := by
    intro T c s1 s3 hw hen hfin
    simp [hw, writeEnable_bit, hen, hfin, disableIfReady]
  refine ⟨fun s9 => by rw [eraseChip_eq]; exact htrue _ _ s9,
    fun s9 => by rw [eraseSector_eq]; exact htrue _ _ s9, ?_,
    fun s1 s3 hw hen hfin => by rw [eraseChip_eq]; exact hfalse _ _ s1 s3 hw hen hfin,
    fun s1 s3 hw hen hfin => by rw [eraseSector_eq]; exact hfalse _ _ s1 s3 hw hen hfin⟩
  intro b s9 hres
  have htx : ∃ txs, s9.trace = s.trace ++ busOf txs ∧ s9.cs = false ∧ txs ≠ [] ∧
      (∀ tx ∈ txs, tx ≠ []) ∧ ([4] ∈ txs ↔ b = true) ∧
      (b = true → ∃ pre, txs = pre ++ [[4]]) := by
    rcases hres with h | h
    · rw [eraseChip_eq] at h
      exact guarded_txns P fuel 10000 s [0x60] (fun x => x) (by simp) (by simp)
        (fun _ => rfl) b s9 h
    · rw [eraseSector_eq] at h
      exact guarded_txns P fuel 1000 s [0x20, (a >>> 16) % 256, (a >>> 8) % 256, 0]
        (fun x => x) (by simp) (by simp) (fun _ => rfl) b s9 h
  obtain ⟨txs, ht, _, _, _, hmem, hlast⟩ := htx
  exact ⟨busOf txs, ht, disable_iff_of_txns _ b ⟨txs, rfl, hmem, hlast⟩⟩

/-- C13, exercised on a 1 MiB device whose chip is ready and latches
write-enable: both erase routines return `true` and the trace they add ends
with the write-disable transaction. -/
theorem erase_true_iff_witness :
    (∃ s9, eraseChip (w25q80 latchedChip id) 1 (initSt 1048576) = some (true, s9)) ∧
    ∃ t, ({ capacity := 1048576, cs := false, ticks := 4, slept := 0,
            trace := busOf [[5, 0], [6], [5, 0], [0x60], [5, 0], [4]] } : St).trace =
          (initSt 1048576).trace ++ t ∧
        ([Ev.select, Ev.xfer 0x04, Ev.deselect] <:+: t ↔ true = true) ∧
        (true = true → [Ev.select, Ev.xfer 0x04, Ev.deselect] <:+ t) :=
  ⟨⟨_, ((erase_true_iff (w25q80 latchedChip id) 1 0 (initSt 1048576)).1 _).mpr
      ⟨afterOnePoll,
       { capacity := 1048576, cs := false, ticks := 4, slept := 0,
         trace := busOf [[5, 0], [6], [5, 0], [0x60], [5, 0]] },
       by decide, by decide, by decide, rfl⟩⟩,
   (erase_true_iff (w25q80 latchedChip id) 1 0 (initSt 1048576)).2.2.1 true _
     (Or.inl (by decide))⟩

/-! ## Chip-select discipline -/

theorem bracketed_of (s s9 : St) (txs : List (List Nat)) (hcs : s.cs = false)
    (hne : ∀ tx ∈ txs, tx ≠ []) (ht : s9.trace = s.trace ++ busOf txs) (h9 : s9.cs = false) :
    Bracketed s s9 :=
  ⟨txs, hne, ht, by rw [hcs]; exact csCheck_busOf txs, h9⟩

/-- C14: starting from the chip deselected, whatever the chip answers and
whatever the result, the trace added by `waitForReady` (any timeout),
`writeEnable`, `writeDisable`, `eraseChip`, `eraseSector`, `writePage` and a
failing `beginRead` is a concatenation of transactions of the form select, one
or more byte exchanges, deselect; select is never asserted while selected, no
byte is exchanged while deselected, and the chip is deselected on return. -/
theorem cs_discipline (P : Platform) (fuel T a : Nat) (data : Nat → Nat) (s : St)
    (hcs : s.cs = false) :
    (∀ b s9, waitForReady P T fuel s = some (b, s9) → Bracketed s s9) ∧
    Bracketed s (writeEnable P s).2 ∧
    Bracketed s (writeDisable P s) ∧
    (∀ b s9, eraseChip P fuel s = some (b, s9) → Bracketed s s9) ∧
    (∀ b s9, eraseSector P fuel a s = some (b, s9) → Bracketed s s9) ∧
    (∀ b s9, writePage P fuel a data s = some (b, s9) → Bracketed s s9) ∧
    (∀ s9, beginRead P fuel a s = some (false, s9) → Bracketed s s9) := by
  have hwait : ∀ (T : Nat) (b : Bool) (s9 : St),
      waitForReady P T fuel s = some (b, s9) → Bracketed s s9 := by
    intro T b s9 h
    obtain ⟨k, _, ht, h9, _⟩ := waitForReady_txns P T fuel s b s9 h
    refine bracketed_of s s9 _ hcs ?_ ht h9
    intro tx htx
    rw [(List.mem_replicate.mp htx).2]
    simp
  have hguard : ∀ (b : Bool) (s9 : St),
      (∃ txs, s9.trace = s.trace ++ busOf txs ∧ s9.cs = false ∧ txs ≠ [] ∧
        (∀ tx ∈ txs, tx ≠ []) ∧ ([4] ∈ txs ↔ b = true) ∧
        (b = true → ∃ pre, txs = pre ++ [[4]])) → Bracketed s s9 := by
    rintro b s9 ⟨txs, ht, h9, _, hne, _, _⟩
    exact bracketed_of s s9 txs hcs hne ht h9
  refine ⟨hwait T, ?_, ?_, ?_, ?_, ?_, ?_⟩
  · refine bracketed_of s _ [[6], [5, 0]] hcs (by simp) ?_ ?_
    · rw [writeEnable_afterTxn]
      simp [afterTxn, busOf]
    · rw [writeEnable_afterTxn]
      rfl
  · refine bracketed_of s _ [[4]] hcs (by simp) ?_ ?_
    · rw [writeDisable_afterTxn]
      simp [afterTxn, busOf]
    · rw [writeDisable_afterTxn]
      rfl
  · intro b s9 h
    rw [eraseChip_eq] at h
    exact hguard b s9 (guarded_txns P fuel 10000 s [0x60] (fun x => x) (by simp) (by simp)
      (fun _ => rfl) b s9 h)
  · intro b s9 h
    rw [eraseSector_eq] at h
    exact hguard b s9 (guarded_txns P fuel 1000 s
      [0x20, (a >>> 16) % 256, (a >>> 8) % 256, 0] (fun x => x) (by simp) (by simp)
      (fun _ => rfl) b s9 h)
  · intro b s9 h
    rw [writePage_eq] at h
    by_cases ha : s.capacity ≤ a
    · simp only [ha, if_true, Option.some.injEq, Prod.mk.injEq] at h
      rw [← h.2]
      exact bracketed_of s s [] hcs (by simp) (by simp [busOf]) hcs
    · simp only [ha, if_false] at h
      exact hguard b s9 (guarded_txns P fuel P.defaultTimeout s
        (0x02 :: (a >>> 16) % 256 :: (a >>> 8) % 256 :: 0 ::
          (List.range 256).map (fun i => data i % 256))
        (delay 3) (by simp) (by simp) (fun _ => rfl) b s9 h)
  · intro s9 h
    by_cases ha : s.capacity ≤ a
    · have hret : beginRead P fuel a s = some (false, s) := by simp [beginRead, ha]
      rw [hret] at h
      simp only [Option.some.injEq, Prod.mk.injEq, true_and] at h
      rw [← h]
      exact bracketed_of s s [] hcs (by simp) (by simp [busOf]) hcs
    · rcases hw : waitForReady P P.defaultTimeout fuel s with _ | ⟨ready, sw⟩
      · simp [beginRead, ha, hw] at h
      · cases ready
        · have hret : beginRead P fuel a s = some (false, sw) := by simp [beginRead, ha, hw]
          rw [hret] at h
          simp only [Option.some.injEq, Prod.mk.injEq, true_and] at h
          rw [← h]
          exact hwait _ _ _ hw
        · simp [beginRead, ha, hw] at h

/-- C14, exercised from the initial (deselected) state of a 1 MiB device whose
chip is ready and latches write-enable. -/
theorem cs_discipline_witness :
    (initSt 1048576).cs = false ∧
    (∀ b s9, waitForReady (w25q80 latchedChip id) 100 2 (initSt 1048576) = some (b, s9) →
      Bracketed (initSt 1048576) s9) ∧
    Bracketed (initSt 1048576) (writeEnable (w25q80 latchedChip id) (initSt 1048576)).2 ∧
    Bracketed (initSt 1048576) (writeDisable (w25q80 latchedChip id) (initSt 1048576)) ∧
    (∀ b s9, eraseChip (w25q80 latchedChip id) 2 (initSt 1048576) = some (b, s9) →
      Bracketed (initSt 1048576) s9) ∧
    (∀ b s9, eraseSector (w25q80 latchedChip id) 2 0x012345 (initSt 1048576) = some (b, s9) →
      Bracketed (initSt 1048576) s9) ∧
    (∀ b s9, writePage (w25q80 latchedChip id) 2 0x012345 rampMem (initSt 1048576)
        = some (b, s9) → Bracketed (initSt 1048576) s9) ∧
    (∀ s9, beginRead (w25q80 latchedChip id) 2 0x012345 (initSt 1048576) = some (false, s9) →
      Bracketed (initSt 1048576) s9) :=
  ⟨rfl, cs_discipline (w25q80 latchedChip id) 2 100 0x012345 rampMem (initSt 1048576) rfl⟩

/-! ## Lossless 24-bit address framing -/

/-- C15: the capacity set by `begin()` is at most `2^24`; hence for every
address `a` below it, the three address bytes `b2, b1, b0` with which a
successful `beginRead(a)` ends its trace satisfy `b2*65536 + b1*256 + b0 = a`,
and the three address bytes `b2, b1, b0` of the program transaction that
`writePage(a, data)` performs once the ready-wait and the write-enable have
succeeded satisfy `b0 = 0` and `b2*65536 + b1*256 + b0 = a - a mod 256`. -/
theorem addr_framing (P : Platform) (s0 : St) (fuel a : Nat) (data : Nat → Nat)
    (ha : a < (begin P s0).1) :
    (begin P s0).1 ≤ 2 ^ 24 ∧
    (∀ s1, beginRead P fuel a (begin P s0).2 = some (true, s1) →
      ∃ t b2 b1 b0,
        s1.trace = t ++ [Ev.select, Ev.xfer 0x03, Ev.xfer b2, Ev.xfer b1, Ev.xfer b0] ∧
        b2 = (a >>> 16) % 256 ∧ b1 = (a >>> 8) % 256 ∧ b0 = a % 256 ∧
        b2 * 65536 + b1 * 256 + b0 = a) ∧
    (∀ s1, waitForReady P P.defaultTimeout fuel (begin P s0).2 = some (true, s1) →
      (writeEnable P s1).1 = true →
      ∃ b2 b1 b0 s8,
        s8.trace = (writeEnable P s1).2.trace ++
          ([Ev.select, Ev.xfer 0x02, Ev.xfer b2, Ev.xfer b1, Ev.xfer b0] ++
            (List.range 256).map (fun i => Ev.xfer (data i % 256)) ++ [Ev.deselect]) ∧
        writePage P fuel a data (begin P s0).2 =
          disableIfReady P (waitForReady P P.defaultTimeout fuel s8) ∧
        b2 = (a >>> 16) % 256 ∧ b1 = (a >>> 8) % 256 ∧ b0 = 0 ∧
        b2 * 65536 + b1 * 256 + b0 = a - a % 256) := by
  have hcap : (begin P s0).2.capacity = (begin P s0).1 := rfl
  have ha24 : a < 2 ^ 24 := lt_of_lt_of_le ha (begin_le P s0)
  have hsum := addr_bytes a ha24
  have hnle : ¬ (begin P s0).2.capacity ≤ a := by rw [hcap]; exact Nat.not_le.mpr ha
  refine ⟨begin_le P s0, ?_, ?_⟩
  · intro s1 h
    rcases hw : waitForReady P P.defaultTimeout fuel (begin P s0).2 with _ | ⟨ready, sw⟩
    · simp [beginRead, hnle, hw] at h
    · cases ready
      · simp [beginRead, hnle, hw] at h
      · simp only [beginRead, ge_iff_le, hnle, if_false, hw, Bool.not_true, Bool.false_eq_true,
          Option.some.injEq, Prod.mk.injEq, true_and] at h
        refine ⟨sw.trace, _, _, _, ?_, rfl, rfl, rfl, hsum⟩
        rw [← h]
        simp [cmd, spi_xfer, chipSelect, CMD_READDATA]
  · intro s1 hw hen
    refine ⟨_, _, _, delay 3 (afterTxn (writeEnable P s1).2
      (0x02 :: (a >>> 16) % 256 :: (a >>> 8) % 256 :: 0 ::
        (List.range 256).map (fun i => data i % 256))), ?_, ?_, rfl, rfl, rfl, ?_⟩
    · simp only [delay, afterTxn, txnEvents, List.map_cons, List.map_map, Function.comp_def,
        List.cons_append, List.nil_append, List.append_assoc]
    · rw [writePage_eq, hw]
      simp only [hnle, if_false, hen, if_true]
    · omega

/-- C15, exercised on a 1 MiB device at address `0x0FEDCB`. -/
theorem addr_framing_witness :
    0x0FEDCB < (begin (w25q80 latchedChip id) (initSt 0)).1 ∧
    (begin (w25q80 latchedChip id) (initSt 0)).1 ≤ 2 ^ 24 ∧
    ∃ t b2 b1 b0,
      ({ capacity := 1048576, cs := true, ticks := 2, slept := 0,
         trace := pollTxn ++ [Ev.select, Ev.xfer 0x03, Ev.xfer 0x0F, Ev.xfer 0xED,
           Ev.xfer 0xCB] } : St).trace =
          t ++ [Ev.select, Ev.xfer 0x03, Ev.xfer b2, Ev.xfer b1, Ev.xfer b0] ∧
        b2 = (0x0FEDCB >>> 16) % 256 ∧ b1 = (0x0FEDCB >>> 8) % 256 ∧ b0 = 0x0FEDCB % 256 ∧
        b2 * 65536 + b1 * 256 + b0 = 0x0FEDCB :=
  ⟨by decide,
   (addr_framing (w25q80 latchedChip id) (initSt 0) 1 0x0FEDCB rampMem (by decide)).1,
   (addr_framing (w25q80 latchedChip id) (initSt 0) 1 0x0FEDCB rampMem (by decide)).2.1 _
     (by decide)⟩

/-! ## Rollover of the millisecond counter -/

/-- C16: the elapsed time of `waitForReady` is the unsigned 32-bit difference
of two counter readings.  For every start reading `st < 2^32` and every true
elapsed time `e < 2^32`, when the counter reads `(st + e) mod 2^32` that
difference is exactly `e`, whether or not the counter wrapped in between; so
the poll of the loop made at that reading returns `false` exactly when
`e > T`, and otherwise goes on as the BUSY bit of the status byte says.  The
start reading of `waitForReady` is the counter reading at its call. -/
theorem rollover_elapsed (P : Platform) (T fuel st e : Nat) (s : St)
    (hst : st < 2 ^ 32) (he : e < 2 ^ 32)
    (hnow : P.clock s.ticks % 2 ^ 32 = (st + e) % 2 ^ 32) :
    sub32 ((st + e) % 2 ^ 32) st = e ∧
    waitLoop P T st (fuel + 1) s =
      (if T < e then
        some (false, { s with cs := false, trace := s.trace ++ pollTxn, ticks := s.ticks + 1 })
       else if P.chip (s.trace ++ [Ev.select, Ev.xfer 0x05]) 0 % 256 &&& STAT_BUSY ≠ 0 then
        waitLoop P T st fuel
          { s with cs := false, trace := s.trace ++ pollTxn, ticks := s.ticks + 1 }
       else
        some (true, { s with cs := false, trace := s.trace ++ pollTxn, ticks := s.ticks + 1 })) ∧
    waitForReady P T fuel s =
      waitLoop P T (P.clock s.ticks % 2 ^ 32) fuel { s with ticks := s.ticks + 1 } := by
  have hsub : sub32 ((st + e) % 2 ^ 32) st = e := by
    simp only [sub32]
    norm_num at hst he ⊢
    omega
  refine ⟨hsub, ?_, rfl⟩
  have hm : (millis P (chipDeselect (spi_xfer P 0 (cmd P CMD_READSTAT1 s)).2)).1 =
      (st + e) % 2 ^ 32 := by
    rw [← hnow]
    simp [millis, chipDeselect, spi_xfer, cmd, chipSelect]
  have hstat : (spi_xfer P 0 (cmd P CMD_READSTAT1 s)).1 =
      P.chip (s.trace ++ [Ev.select, Ev.xfer 0x05]) 0 % 256 := by
    simp [cmd, spi_xfer, chipSelect, CMD_READSTAT1]
  rw [waitLoop]
  simp only [poll_state, hm, hsub, hstat, gt_iff_lt]

/-- C16, exercised across a wrap: the start reading is `2^32 - 5`, the true
elapsed time is 10 ms, so the counter reads 5.  With a timeout of 100 ms the
poll does not time out, with a timeout of 9 ms it does, and `waitForReady` as a
whole behaves accordingly on a clock that wraps between its first two
readings. -/
theorem rollover_elapsed_witness :
    ((2 ^ 32 - 5 < 2 ^ 32 ∧ 10 < 2 ^ 32 ∧
      (w25q80 idleChip rolloverClock).clock ({ initSt 1048576 with ticks := 1 } : St).ticks
        % 2 ^ 32 = (2 ^ 32 - 5 + 10) % 2 ^ 32) ∧
      sub32 ((2 ^ 32 - 5 + 10) % 2 ^ 32) (2 ^ 32 - 5) = 10) ∧
    (2 ^ 32 - 5 + 10) % 2 ^ 32 = 5 ∧
    waitForReady (w25q80 idleChip rolloverClock) 100 1 (initSt 1048576) =
      some (true, afterOnePoll) ∧
    waitForReady (w25q80 idleChip rolloverClock) 9 1 (initSt 1048576) =
      some (false, afterOnePoll) :=
  ⟨⟨⟨by decide, by decide, by decide⟩,
    (rollover_elapsed (w25q80 idleChip rolloverClock) 100 0 (2 ^ 32 - 5) 10
      ({ initSt 1048576 with ticks := 1 } : St) (by decide) (by decide) (by decide)).1⟩,
   by decide, by decide, by decide⟩

end TinyFlash
